import Mathlib

/-!
Verification of the CV-parsing / candidate-matching core
(`backend/ml/matching_engine.py`, `backend/ml/skill_analyzer.py`,
`backend/services/cv_parser_service.py`).

Python text is modelled as `List Char`; Python `float` arithmetic is modelled
exactly over `ℚ` (the scores involved are small decimal quantities, so binary
rounding of doubles never changes a comparison made by the code); Python
`round(x, n)` is modelled as round-half-to-even (`pyRound`), which is Python's
rounding mode.  Regular expressions are executed by a small backtracking
engine (`matchRE`) whose alternation order and greediness mirror Python's
`re` module on the concrete patterns appearing in the source.
-/

set_option maxRecDepth 10000
set_option synthInstance.maxHeartbeats 1000000

abbrev Str := List Char

/-! ## Basic string helpers -/

def lowerStr (s : Str) : Str := s.map Char.toLower

/-- Python's `\s` class restricted to ASCII, which is all the code feeds it. -/
def isSpaceChar (c : Char) : Bool :=
  c = ' ' || c = '\t' || c = '\n' || c = '\r' || c = '\x0b' || c = '\x0c'

/-- Python's `\w` class restricted to ASCII. -/
def isWordChar (c : Char) : Bool := c.isAlphanum || c = '_'

/-- Whether `n` is a prefix of `h` (`h.startswith(n)` in Python). -/
def startsWithStr : Str → Str → Bool
  | _, [] => true
  | [], _ :: _ => false
  | c :: t, d :: r => c = d && startsWithStr t r

/-- Python's substring test `n in h`. -/
def strContains : Str → Str → Bool
  | [], n => startsWithStr [] n
  | h@(_ :: t), n => startsWithStr h n || strContains t n

/-- Python's `h.index(n)`/`h.find(n)`: index of the first occurrence. -/
def firstIdxOf : Str → Str → Option Nat
  | h, n =>
    if startsWithStr h n then some 0
    else match h with
      | [] => none
      | _ :: t => (firstIdxOf t n).map (· + 1)

/-- Python's `s.split('\n')` (empty pieces kept). -/
def splitNL : Str → List Str
  | [] => [[]]
  | c :: t =>
    if c = '\n' then [] :: splitNL t
    else match splitNL t with
      | [] => [[c]]
      | l :: ls => (c :: l) :: ls

/-- `'\n'.join(lines)`, the inverse of `splitNL`. -/
def joinNL : List Str → Str
  | [] => []
  | [l] => l
  | l :: ls => l ++ '\n' :: joinNL ls

/-- Python's `s.strip()`. -/
def pyStrip (s : Str) : Str :=
  ((s.dropWhile isSpaceChar).reverse.dropWhile isSpaceChar).reverse

/-- Drop the longest run of `p`-characters at the end (`re.sub(r'[..]+$','',s)`). -/
def stripTrailing (p : Char → Bool) (s : Str) : Str :=
  (s.reverse.dropWhile p).reverse

/-- Python's `s.split()`: split on whitespace runs, dropping empty pieces. -/
def pyWords (s : Str) : List Str :=
  ((s.splitOnP (fun c => isSpaceChar c)).map id).filter (fun w => !w.isEmpty)

/-- Replace every maximal run of `p`-characters by the single character `r`
(`re.sub(r'[..]+', r, s)` for a character class). -/
def replRuns (p : Char → Bool) (r : Char) : Bool → Str → Str
  | _, [] => []
  | inRun, c :: t =>
    if p c then
      if inRun then replRuns p r true t else r :: replRuns p r true t
    else c :: replRuns p r false t

/-- Python slice `s[a:b]` (for `0 ≤ a ≤ b`; `Nat` truncation covers clamping). -/
def strSlice (s : Str) (a b : Nat) : Str := (s.drop a).take (b - a)

/-- Value of a digit string (`int(s)` for the matched digit groups). -/
def digitsToInt (s : Str) : ℤ :=
  s.foldl (fun a c => a * 10 + ((c.toNat : ℤ) - ('0'.toNat : ℤ))) 0

/-- Maximum of a list of integers, `none` when empty (`max(xs)` in Python). -/
def maxIntList : List ℤ → Option ℤ
  | [] => none
  | x :: t => some (t.foldl max x)

/-! ## Python `round` over exact rationals -/

/-- Round-half-to-even on a rational, Python's rounding mode for `round`. -/
def pyRound (q : ℚ) : ℤ :=
  if q - (Rat.floor q : ℚ) < 1/2 then Rat.floor q
  else if (1 : ℚ)/2 < q - (Rat.floor q : ℚ) then Rat.floor q + 1
  else if Rat.floor q % 2 = 0 then Rat.floor q else Rat.floor q + 1

/-- Python's `round(q, 2)`. -/
def round2 (q : ℚ) : ℚ := ((pyRound (q * 100) : ℤ) : ℚ) / 100

/-- Python's `round(q, 1)`. -/
def round1 (q : ℚ) : ℚ := ((pyRound (q * 10) : ℤ) : ℚ) / 10

/-! ## The matching engine (`backend/ml/matching_engine.py`) -/

/-- The `education_levels` ordinal table of `MatchingEngine.__init__`,
in its insertion order. -/
def educationLevels : List (Str × ℤ) :=
  [("high school".data, 1), ("diploma".data, 2), ("associate".data, 3),
   ("bachelor".data, 4), ("bachelor's".data, 4), ("master".data, 5),
   ("master's".data, 5), ("mba".data, 5), ("phd".data, 6), ("doctorate".data, 6)]

/-- First entry of the ordinal table contained in the lowered level string. -/
def levelLookup : List (Str × ℤ) → Str → ℤ
  | [], _ => 0
  | (k, v) :: rest, low => if strContains low k then v else levelLookup rest low

/-- `MatchingEngine._normalize_education_level`. -/
def normalizeEducationLevel (s : Str) : ℤ :=
  if s.isEmpty then 0 else levelLookup educationLevels (lowerStr s)

/-- `MatchingEngine._calculate_skill_match`.  The TF-IDF cosine-similarity
term (`similarity * 30`, or `0.0` when vectorization throws) is the
`semantic` parameter: the vectorizer is an external library whose numeric
output the code only adds to the exact-match score before clamping. -/
def calcSkillMatch (semantic : ℚ) (candidateSkills requiredSkills preferredSkills : List Str) : ℚ :=
  if candidateSkills.isEmpty then 0
  else
    let cand := candidateSkills.map lowerStr
    let req := requiredSkills.map lowerStr
    let pref := preferredSkills.map lowerStr
    if req.isEmpty && pref.isEmpty then 50
    else
      let reqScore : ℚ :=
        if req.isEmpty then 0
        else ((req.countP (fun rs => cand.any (fun cs => strContains cs rs || strContains rs cs)) : ℚ)
              / (req.length : ℚ)) * 50
      let prefScore : ℚ :=
        if pref.isEmpty then 0
        else ((pref.countP (fun ps => cand.any (fun cs => strContains cs ps || strContains ps cs)) : ℚ)
              / (pref.length : ℚ)) * 20
      round2 (max 0 (min 100 (reqScore + prefScore + semantic)))

/-- `MatchingEngine._calculate_experience_match`. -/
def calcExperienceMatch (candidateYears requiredYears : ℤ) : ℚ :=
  if requiredYears = 0 then 100
  else if candidateYears = 0 then 0
  else
    let ratio : ℚ := (candidateYears : ℚ) / (requiredYears : ℚ)
    if 1 ≤ ratio then 100
    else if (0.8 : ℚ) ≤ ratio then round2 (min 100 (80 + (ratio - 0.8) * 95))
    else round2 (max 0 (ratio * 100))

/-- `MatchingEngine._calculate_education_match`; candidate education entries
enter only through their `degree` strings. -/
def calcEducationMatch (candidateEducation : List Str) (requiredEducationLevel : Option Str) : ℚ :=
  match requiredEducationLevel with
  | none => 100
  | some req =>
    if req.isEmpty then 100
    else if candidateEducation.isEmpty then 0
    else
      let requiredLevel := normalizeEducationLevel req
      if requiredLevel = 0 then 50
      else
        let candidateMaxLevel :=
          candidateEducation.foldl (fun m d => max m (normalizeEducationLevel d)) 0
        if candidateMaxLevel = 0 then 20
        else if requiredLevel ≤ candidateMaxLevel then 100
        else if candidateMaxLevel = requiredLevel - 1 then 70
        else if candidateMaxLevel = requiredLevel - 2 then 40
        else 20

structure Candidate where
  skills : List Str
  total_experience_years : ℤ
  education : List Str

structure JobPosition where
  required_skills : List Str
  preferred_skills : List Str
  min_experience_years : ℤ
  education_level : Option Str

structure MatchScores where
  match_score : ℚ
  skill_match_score : ℚ
  experience_match_score : ℚ
  education_match_score : ℚ

/-- `MatchingEngine.calculate_match_score`. -/
def calculateMatchScore (semantic : ℚ) (candidate : Candidate) (job : JobPosition) : MatchScores :=
  let skillScore := calcSkillMatch semantic candidate.skills job.required_skills job.preferred_skills
  let experienceScore := calcExperienceMatch candidate.total_experience_years job.min_experience_years
  let educationScore := calcEducationMatch candidate.education job.education_level
  let overall := round2 (skillScore * 0.5 + experienceScore * 0.3 + educationScore * 0.2)
  ⟨overall, skillScore, experienceScore, educationScore⟩

/-- The qualification classification of `MatchingEngine.screen_candidate`
(lines 448-464): it depends only on the overall and skill scores. -/
def screenStatus (overall skill : ℚ) : String :=
  if 70 ≤ overall ∧ 60 ≤ skill then "Qualified"
  else if 50 ≤ overall ∨ (40 ≤ overall ∧ 50 ≤ skill) then "Potentially Qualified"
  else "Not Qualified"

/-! ## The regex engine

A backtracking matcher for the concrete patterns of the source, with
Python `re` semantics on them: leftmost match, alternatives tried in order,
greedy (or lazy) repetition, ASCII word boundaries. -/

inductive RE where
  | eps : RE
  | cls : (Char → Bool) → RE
  | cat : RE → RE → RE
  | alt : RE → RE → RE
  | star : Bool → RE → RE
  | grp : Nat → RE → RE
  | wb : RE

/-- Record group `i`'s captured text (last write wins, as in `re`). -/
def setCap (i : Nat) (v : Str) : List (Nat × Str) → List (Nat × Str)
  | [] => [(i, v)]
  | (j, w) :: t => if i = j then (i, v) :: t else (j, w) :: setCap i v t

def capGet (caps : List (Nat × Str)) (i : Nat) : Str :=
  match caps.lookup i with
  | some v => v
  | none => []

/-- The type of a matcher continuation and of a partial-match result. -/
abbrev MK : Type :=
  Option Char → Str → List (Nat × Str) → Option (List (Nat × Str) × Str)

/-- CPS backtracking matcher: `prev` is the character before the current
position (for `\\b`), `s` the remaining input, `k` the continuation.  `fuel`
bounds the recursion depth, one unit per pattern-node level; the deepest
path any pattern of the source can drive on the inputs evaluated in this
file stays under 150 levels (the pattern's size plus a small multiple of
the characters one repetition run consumes), so `matchFuel` is never the
limiting factor. -/
def matchRE (fuel : Nat) (r : RE) (prev : Option Char) (s : Str) (caps : List (Nat × Str))
    (k : MK) : Option (List (Nat × Str) × Str) :=
  match fuel with
  | 0 => none
  | fuel' + 1 =>
    match r with
    | .eps => k prev s caps
    | .cls f =>
      match s with
      | [] => none
      | c :: rest => if f c then k (some c) rest caps else none
    | .cat a b =>
      matchRE fuel' a prev s caps (fun p' s' c' => matchRE fuel' b p' s' c' k)
    | .alt a b =>
      match matchRE fuel' a prev s caps k with
      | some x => some x
      | none => matchRE fuel' b prev s caps k
    | .star g a =>
      let more := fun (p' : Option Char) (s' : Str) (c' : List (Nat × Str)) =>
        if s'.length < s.length then matchRE fuel' (.star g a) p' s' c' k else none
      if g then
        match matchRE fuel' a prev s caps more with
        | some x => some x
        | none => k prev s caps
      else
        match k prev s caps with
        | some x => some x
        | none => matchRE fuel' a prev s caps more
    | .grp i a =>
      matchRE fuel' a prev s caps
        (fun p' s' c' => k p' s' (setCap i (s.take (s.length - s'.length)) c'))
    | .wb =>
      let before := match prev with | none => false | some c => isWordChar c
      let after := match s with | [] => false | c :: _ => isWordChar c
      if before != after then k prev s caps else none

def matchFuel : Nat := 1000


/-- Try to match `r` at the current position, else advance one character:
`re.search` returning the match's start position, captures and the rest. -/
def reSearchAux (r : RE) (prev : Option Char) (pos : Nat) (s : Str) :
    Option (Nat × List (Nat × Str) × Str) :=
  match matchRE matchFuel r prev s [] (fun _ s' caps => some (caps, s')) with
  | some (caps, rest) => some (pos, caps, rest)
  | none =>
    match s with
    | [] => none
    | c :: t => reSearchAux r (some c) (pos + 1) t

/-- Non-overlapping matches left to right (`re.finditer`); group 0 must be
wrapped around `r` by the caller. -/
def finditerGo (iterFuel : Nat) (r : RE) (prev : Option Char) (pos : Nat) (s : Str) :
    List (Nat × List (Nat × Str)) :=
  match iterFuel with
  | 0 => []
  | f + 1 =>
    match reSearchAux r prev pos s with
    | none => []
    | some (mpos, caps, rest) =>
      let g0 := capGet caps 0
      match g0 with
      | [] =>
        match rest with
        | [] => [(mpos, caps)]
        | c :: t => (mpos, caps) :: finditerGo f r (some c) (mpos + 1) t
      | _ :: _ => (mpos, caps) :: finditerGo f r g0.getLast? (mpos + g0.length) rest

/-- `re.finditer(r, s)` as a list of (start position, captures). -/
def reFinditer (r : RE) (s : Str) : List (Nat × List (Nat × Str)) :=
  finditerGo (s.length + 1) (.grp 0 r) none 0 s

/-- `re.search(r, s) is not None`. -/
def reTest (r : RE) (s : Str) : Bool :=
  (reSearchAux (.grp 0 r) none 0 s).isSome

/-- First match's captures (`re.search`). -/
def reFirstMatch (r : RE) (s : Str) : Option (List (Nat × Str)) :=
  match reSearchAux (.grp 0 r) none 0 s with
  | some (_, caps, _) => some caps
  | none => none

/-- `re.findall` for a pattern with one capturing group. -/
def findallG1 (r : RE) (s : Str) : List Str :=
  (reFinditer r s).map (fun m => capGet m.2 1)

/-- Delete every match of `r` from `s` (`re.sub(r, '', s)`). -/
def reSub (r : RE) (s : Str) : Str :=
  spliceOut ((reFinditer r s).map (fun m => (m.1, (capGet m.2 0).length))) 0 s
where
  spliceOut : List (Nat × Nat) → Nat → Str → Str
    | [], _, rest => rest
    | (st, ln) :: spans, pos, rest =>
      rest.take (st - pos) ++ spliceOut spans (st + ln) (rest.drop (st - pos + ln))

/-! ### Pattern constructors -/

def chE (c : Char) : RE := .cls (fun x => x = c)

/-- A literal character under `re.IGNORECASE`. -/
def chI (c : Char) : RE := .cls (fun x => x.toLower = c.toLower)

def strE (s : Str) : RE := s.foldr (fun c r => .cat (chE c) r) .eps

def strIRE (s : Str) : RE := s.foldr (fun c r => .cat (chI c) r) .eps

def catList (l : List RE) : RE := l.foldr .cat .eps

def altList : List RE → RE
  | [] => .cls (fun _ => false)
  | [r] => r
  | r :: t => .alt r (altList t)

/-- Greedy `r?`. -/
def optG (r : RE) : RE := .alt r .eps

def starG (r : RE) : RE := .star true r

def plusG (r : RE) : RE := .cat r (.star true r)

def plusL (r : RE) : RE := .cat r (.star false r)

def digitRE : RE := .cls Char.isDigit

def wsRE : RE := .cls isSpaceChar

def alphaRE : RE := .cls Char.isAlpha

/-! ## Section extraction (`CVParserService._extract_section`) -/

/-- Index of the first line whose lowered, stripped text contains one of the
keywords and is shorter than 50 characters. -/
def sectionStartIdx (keywords : List Str) (lines : List Str) : Option Nat :=
  lines.findIdx? (fun line =>
    let ll := pyStrip (lowerStr line)
    keywords.any (fun kw => strContains ll kw) && decide (ll.length < 50))

/-- Index of the next section header after `start` (a short line containing a
common section name whose first occurrence starts before index 5), or the
number of lines. -/
def sectionEndIdx (commonSections : List Str) (lines : List Str) (start : Nat) : Nat :=
  match (lines.drop (start + 1)).findIdx? (fun line =>
      let ll := pyStrip (lowerStr line)
      decide (ll.length < 50) && commonSections.any (fun sec =>
        match firstIdxOf ll sec with
        | some j => decide (j < 5)
        | none => false)) with
  | some k => start + 1 + k
  | none => lines.length

/-- The common-section list hard-coded in `_extract_section`. -/
def commonSectionsA : List Str :=
  ["experience".data, "work".data, "employment".data, "skills".data, "projects".data,
   "certifications".data, "awards".data, "publications".data, "references".data]

/-- `CVParserService._extract_section`. -/
def extractSection (keywords : List Str) (s : Str) : Option Str :=
  let lines := splitNL s
  match sectionStartIdx keywords lines with
  | none => none
  | some st =>
    let en := sectionEndIdx commonSectionsA lines st
    some (joinNL ((lines.drop st).take (en - st)))

/-! ## Date ranges and total experience (`_extract_date_ranges`,
`_calculate_total_experience`) -/

/-- `19\d{2}|20\d{2}`. -/
def yearRE : RE :=
  .alt (catList [chE '1', chE '9', digitRE, digitRE])
       (catList [chE '2', chE '0', digitRE, digitRE])

/-- The range pattern
`\b(19\d{2}|20\d{2})\s*[-–to]+\s*(19\d{2}|20\d{2}|present|current)\b`
compiled with `re.IGNORECASE`. -/
def dateRangeRE : RE :=
  catList [.wb, .grp 1 yearRE, starG wsRE,
           plusG (.cls (fun c => c = '-' || c = '–' || c.toLower = 't' || c.toLower = 'o')),
           starG wsRE,
           .grp 2 (altList [yearRE, strIRE "present".data, strIRE "current".data]),
           .wb]

/-- `CVParserService._extract_date_ranges`; `currentYear` stands for
`datetime.now().year`. -/
def extractDateRanges (currentYear : ℤ) (s : Str) : List (ℤ × ℤ) :=
  (reFinditer dateRangeRE s).map (fun m =>
    let g2 := lowerStr (capGet m.2 2)
    let endYear : ℤ :=
      if g2 = "present".data || g2 = "current".data then currentYear else digitsToInt g2
    (digitsToInt (capGet m.2 1), endYear))

/-- Stable insertion into a list sorted by the boolean order `le`. -/
def insertLe (le : α → α → Bool) (a : α) : List α → List α
  | [] => [a]
  | b :: t => if le a b then a :: b :: t else b :: insertLe le a t

/-- Stable sort by the boolean order `le` (Python's `sorted`/`list.sort`). -/
def insortLe (le : α → α → Bool) : List α → List α
  | [] => []
  | a :: t => insertLe le a (insortLe le t)

/-- Lexicographic tuple order, Python's `sorted` key for pairs. -/
def lexLe (a b : ℤ × ℤ) : Bool :=
  decide (a.1 < b.1) || (decide (a.1 = b.1) && decide (a.2 ≤ b.2))

/-- The merge loop of `_calculate_total_experience`. -/
def mergeLoop (cs ce : ℤ) : List (ℤ × ℤ) → List (ℤ × ℤ)
  | [] => [(cs, ce)]
  | (s, e) :: rest =>
    if s ≤ ce then mergeLoop cs (max ce e) rest
    else (cs, ce) :: mergeLoop s e rest

def sumRangeLens (l : List (ℤ × ℤ)) : ℤ := (l.map (fun p => p.2 - p.1)).sum

/-- `CVParserService._calculate_total_experience`: sort, merge overlapping
ranges, sum the merged lengths. -/
def calcTotalExperience (l : List (ℤ × ℤ)) : ℤ :=
  match insortLe lexLe l with
  | [] => 0
  | (s, e) :: rest => sumRangeLens (mergeLoop s e rest)

/-- The experience-section keyword list of `extract_experience`. -/
def experienceKeywords : List Str :=
  ["experience".data, "work".data, "employment".data, "professional".data, "career".data]

/-- The date ranges `extract_experience` collects (empty when no experience
section is found). -/
def experienceDateRanges (currentYear : ℤ) (text : Str) : List (ℤ × ℤ) :=
  match extractSection experienceKeywords text with
  | none => []
  | some sec => extractDateRanges currentYear sec

/-- The `total_experience_years` value computed by `extract_experience` and
stored by `parse_cv`. -/
def totalExperienceYears (currentYear : ℤ) (text : Str) : ℤ :=
  match extractSection experienceKeywords text with
  | none => 0
  | some sec => calcTotalExperience (extractDateRanges currentYear sec)

/-! ## Education extraction (`CVParserService.extract_education`) -/

def eduKeywords : List Str := ["education".data, "academic".data, "qualification".data]

def dotOpt : RE := optG (chE '.')

/-- `['s]*` under `re.IGNORECASE`. -/
def aposS : RE := starG (.cls (fun c => c = '\'' || c.toLower = 's'))

/-- `[A-Z][a-zA-Z]+` under `re.IGNORECASE`. -/
def capWord : RE := .cat alphaRE (plusG alphaRE)

/-- `\b(Ph\.?D\.?|Doctor of Philosophy|Doctorate)\b`. -/
def degreeP1 : RE :=
  catList [.wb, .grp 1 (altList
    [catList [chI 'p', chI 'h', dotOpt, chI 'd', dotOpt],
     strIRE "Doctor of Philosophy".data,
     strIRE "Doctorate".data]), .wb]

/-- `\b(Master['s]*|M\.?S\.?|M\.?A\.?|MBA|M\.?Tech|M\.?Eng)\b`. -/
def degreeP2 : RE :=
  catList [.wb, .grp 1 (altList
    [catList [strIRE "Master".data, aposS],
     catList [chI 'm', dotOpt, chI 's', dotOpt],
     catList [chI 'm', dotOpt, chI 'a', dotOpt],
     strIRE "MBA".data,
     catList [chI 'm', dotOpt, strIRE "Tech".data],
     catList [chI 'm', dotOpt, strIRE "Eng".data]]), .wb]

/-- `\b(Bachelor['s]*|B\.?S\.?|B\.?A\.?|B\.?Tech|B\.?Eng|Undergraduate)\b`. -/
def degreeP3 : RE :=
  catList [.wb, .grp 1 (altList
    [catList [strIRE "Bachelor".data, aposS],
     catList [chI 'b', dotOpt, chI 's', dotOpt],
     catList [chI 'b', dotOpt, chI 'a', dotOpt],
     catList [chI 'b', dotOpt, strIRE "Tech".data],
     catList [chI 'b', dotOpt, strIRE "Eng".data],
     strIRE "Undergraduate".data]), .wb]

/-- `\b(Associate['s]*|A\.?S\.?|A\.?A\.?)\b`. -/
def degreeP4 : RE :=
  catList [.wb, .grp 1 (altList
    [catList [strIRE "Associate".data, aposS],
     catList [chI 'a', dotOpt, chI 's', dotOpt],
     catList [chI 'a', dotOpt, chI 'a', dotOpt]]), .wb]

/-- `\b(Diploma|Certificate)\b`. -/
def degreeP5 : RE :=
  catList [.wb, .grp 1 (altList [strIRE "Diploma".data, strIRE "Certificate".data]), .wb]

def degreePatterns : List RE := [degreeP1, degreeP2, degreeP3, degreeP4, degreeP5]

/-- The six `university_patterns` of `extract_education`, in order. -/
def uniPatterns : List RE :=
  [.grp 1 (catList [strIRE "Universitas".data, plusG wsRE, capWord,
                    optG (catList [plusG wsRE, capWord])]),
   .grp 1 (catList [strIRE "University".data, plusG wsRE, strIRE "of".data, plusG wsRE,
                    capWord, optG (catList [plusG wsRE, capWord])]),
   .grp 1 (catList [capWord, plusG wsRE, strIRE "University".data]),
   .grp 1 (catList [strIRE "Institut".data, plusG wsRE, capWord,
                    optG (catList [plusG wsRE, capWord])]),
   .grp 1 (catList [capWord, plusG wsRE, strIRE "Institute".data]),
   .grp 1 (catList [capWord, plusG wsRE, strIRE "College".data])]

/-- The trailing-punctuation class `[\s\-–,;.]`. -/
def trailPunct (c : Char) : Bool :=
  isSpaceChar c || c = '-' || c = '–' || c = ',' || c = ';' || c = '.'

/-- The cleanup applied to a university-pattern hit: strip, newlines to
spaces, whitespace runs collapsed, trailing punctuation removed. -/
def cleanInstitution (raw : Str) : Str :=
  stripTrailing trailPunct
    (replRuns isSpaceChar ' ' false
      (replRuns (fun c => c = '\n' || c = '\r') ' ' false (pyStrip raw)))

/-- First university pattern with a hit in the context, first hit taken. -/
def firstUniHit : List RE → Str → Option Str
  | [], _ => none
  | p :: rest, ctx =>
    match findallG1 p ctx with
    | [] => firstUniHit rest ctx
    | m :: _ => some m

/-- The degree-program words that disqualify an ORG entity as institution. -/
def orgRejectWords : List Str :=
  ["undergraduate".data, "bachelor".data, "master".data, "phd".data, "informatics".data,
   "engineering".data, "science".data, "student".data, "association".data]

/-- The ORG-entity fallback: first entity of at least two words containing no
degree-program word. -/
def findOrgInstitution (orgs : List Str) : Option Str :=
  orgs.find? (fun org =>
    !(orgRejectWords.any (fun d => strContains (lowerStr org) d)) &&
    decide (2 ≤ (pyWords org).length))

/-- Institution lookup in a context window; `ner` is the ORG-entity oracle
(spaCy's recognizer, an external model). -/
def findInstitution (ner : Str → List Str) (ctx : Str) : Option Str :=
  match firstUniHit uniPatterns ctx with
  | some raw => some (cleanInstitution raw)
  | none => findOrgInstitution (ner ctx)

/-- `\b(19\d{2}|20\d{2})\b`. -/
def yearOnlyRE : RE := catList [.wb, .grp 1 yearRE, .wb]

/-- Most recent 4-digit year in the context (`max(context_years)`; the
matches are 4-digit strings, so string max is numeric max). -/
def findContextYear (ctx : Str) : Option ℤ :=
  maxIntList ((findallG1 yearOnlyRE ctx).map digitsToInt)

def institutionWords : List Str :=
  ["university".data, "universitas".data, "institute".data, "institut".data,
   "college".data, "school".data]

/-- `\b<degree>\s+([A-Z][a-zA-Z]+(?:\s+[A-Z][a-zA-Z]+)?)\b` (IGNORECASE). -/
def simpleFieldRE (degree : Str) : RE :=
  catList [.wb, strIRE degree, plusG wsRE,
           .grp 1 (catList [capWord, optG (catList [plusG wsRE, capWord])]), .wb]

/-- `(?:in|of)\s+([A-Z][a-zA-Z\s]+?)(?:\s*,|\s*\n|\s+at|\s+from|\s+\-)`. -/
def fieldPatternRE : RE :=
  catList [altList [strIRE "in".data, strIRE "of".data], plusG wsRE,
           .grp 1 (.cat alphaRE (plusL (.cls (fun c => c.isAlpha || isSpaceChar c)))),
           altList [catList [starG wsRE, chE ','],
                    catList [starG wsRE, chE '\n'],
                    catList [plusG wsRE, strIRE "at".data],
                    catList [plusG wsRE, strIRE "from".data],
                    catList [plusG wsRE, chE '-']]]

/-- `\b(degree|program|major|concentration|specialization|science)\b`. -/
def fieldNoiseRE : RE :=
  catList [.wb, .grp 1 (altList
    [strIRE "degree".data, strIRE "program".data, strIRE "major".data,
     strIRE "concentration".data, strIRE "specialization".data, strIRE "science".data]), .wb]

/-- Field strategy 2: the `in/of` pattern with noise-word cleanup and length
checks. -/
def fieldStrategy2 (ctx : Str) : Option Str :=
  match findallG1 fieldPatternRE ctx with
  | [] => none
  | f :: _ =>
    let f1 := pyStrip f
    let f2 := pyStrip (reSub fieldNoiseRE f1)
    let f3 := stripTrailing trailPunct f2
    if !f3.isEmpty && decide (2 < f3.length) && decide (f3.length < 50) then some f3 else none

/-- Field of study: strategy 1 looks on the first line of the context that
contains the degree, strategy 2 at `in/of` phrases in the whole context. -/
def findField (degree ctx : Str) : Option Str :=
  let degreeLines := (splitNL ctx).filter (fun line => strContains (lowerStr line) (lowerStr degree))
  let s1 : Option Str :=
    match degreeLines with
    | [] => none
    | dl :: _ =>
      match reFirstMatch (simpleFieldRE degree) (pyStrip dl) with
      | some caps =>
        let pf := pyStrip (capGet caps 1)
        if institutionWords.any (fun w => strContains (lowerStr pf) w) then none else some pf
      | none => none
  match s1 with
  | some f => some f
  | none => fieldStrategy2 ctx

/-- The `degree_level_map` of `extract_education`, in insertion order. -/
def degreeLevelMap : List (Str × Str) :=
  [("phd".data, "PhD".data), ("doctor".data, "PhD".data), ("doctorate".data, "PhD".data),
   ("master".data, "Master's".data), ("mba".data, "Master's".data),
   ("bachelor".data, "Bachelor's".data), ("undergraduate".data, "Bachelor's".data),
   ("associate".data, "Associate's".data), ("diploma".data, "Diploma".data),
   ("certificate".data, "Certificate".data)]

def levelFind : List (Str × Str) → Str → Str
  | [], _ => "Other".data
  | (k, v) :: rest, low => if strContains low k then v else levelFind rest low

/-- `CVParserService._determine_education_level`. -/
def determineEducationLevel (degree : Str) : Str :=
  levelFind degreeLevelMap (lowerStr degree)

structure EducationEntry where
  degree : Str
  field : Option Str
  institution : Option Str
  year : Option ℤ
  level : Str
deriving DecidableEq

/-- The entry one degree-pattern match produces: the degree is the match's
text, everything else is resolved in the 200-character context window
around the match's position. -/
def eduEntryOf (ner : Str → List Str) (sec : Str) (m : Nat × List (Nat × Str)) : EducationEntry :=
  let degree := capGet m.2 0
  let ctx := strSlice sec (m.1 - 200) (min sec.length (m.1 + 200))
  ⟨degree, findField degree ctx, findInstitution ner ctx,
   findContextYear ctx, determineEducationLevel degree⟩

/-- `CVParserService.extract_education`: all degree-pattern matches inside
the education section, each resolved in its 200-character context window;
exact duplicates (whole-entry equality) are suppressed. -/
def extractEducation (ner : Str → List Str) (text : Str) : List EducationEntry :=
  match extractSection eduKeywords text with
  | none => []
  | some sec =>
    degreePatterns.foldl (fun acc pat =>
      (reFinditer pat sec).foldl (fun acc2 m =>
        if eduEntryOf ner sec m ∈ acc2 then acc2 else acc2 ++ [eduEntryOf ner sec m]) acc) []

/-! ## `CVParserService.parse_cv` -/

structure ContactInfo where
  name : Option Str
  email : Option Str
  phone : Option Str

structure CVProfile (α β : Type) where
  name : Option Str
  email : Option Str
  phone : Option Str
  education : List α
  experience : List β
  total_experience_years : ℤ
  raw_text : Str
  extraction_status : Str
  extraction_errors : List Str

/-- Whether a sub-extraction outcome raised (1 error recorded) or not. -/
def errCount : Except Str γ → ℕ
  | .ok _ => 0
  | .error _ => 1

/-- `CVParserService.parse_cv`.  Each of the three guarded sub-extractions is
given by its outcome: `.ok` with its value, or `.error` with the exception
text (spaCy and the regex layer can raise on exotic inputs, which the
`try/except` blocks absorb). -/
def parseCV {α β : Type} (text : Str) (contact : Except Str ContactInfo)
    (edu : Except Str (List α)) (exper : Except Str (List β × ℤ)) : CVProfile α β :=
  let p0 : CVProfile α β :=
    ⟨none, none, none, [], [], 0, text, "success".data, []⟩
  let p1 : CVProfile α β :=
    match contact with
    | .ok ci => { p0 with name := ci.name, email := ci.email, phone := ci.phone }
    | .error e =>
      { p0 with
        extraction_errors := p0.extraction_errors ++ ["Contact info extraction failed: ".data ++ e]
        extraction_status := "partial".data }
  let p2 : CVProfile α β :=
    match edu with
    | .ok l => { p1 with education := l }
    | .error e =>
      { p1 with
        extraction_errors := p1.extraction_errors ++ ["Education extraction failed: ".data ++ e]
        extraction_status := "partial".data }
  let p3 : CVProfile α β :=
    match exper with
    | .ok le => { p2 with experience := le.1, total_experience_years := le.2 }
    | .error e =>
      { p2 with
        extraction_errors := p2.extraction_errors ++ ["Experience extraction failed: ".data ++ e]
        extraction_status := "partial".data }
  let p4 : CVProfile α β :=
    if p3.name = none ∧ p3.email = none then
      { p3 with
        extraction_status := "failed".data
        extraction_errors := p3.extraction_errors ++ ["Critical information missing: name and email".data] }
    else p3
  if 3 ≤ p4.extraction_errors.length then { p4 with extraction_status := "failed".data } else p4

/-! ## The skill analyzer (`backend/ml/skill_analyzer.py`) -/

/-- The `skill_categories` taxonomy of `SkillAnalyzer.__init__`, in
declaration order. -/
def skillCategories : List (String × List String) :=
  [("programming_languages",
    ["Python", "JavaScript", "Java", "C++", "C#", "C", "Ruby", "PHP",
     "Swift", "Kotlin", "Go", "Rust", "TypeScript", "Scala", "R",
     "Perl", "Objective-C", "Dart", "MATLAB", "Shell", "Bash",
     "PowerShell", "VBA", "SQL", "PL/SQL", "T-SQL", "Groovy", "Lua",
     "Haskell", "Elixir", "Clojure", "F#", "Julia", "Assembly"]),
   ("frameworks",
    ["React", "Angular", "Vue.js", "Vue", "Node.js", "Express.js",
     "Django", "Flask", "FastAPI", "Spring", "Spring Boot", "Hibernate",
     ".NET", "ASP.NET", "Laravel", "Symfony", "Ruby on Rails", "Rails",
     "jQuery", "Bootstrap", "Tailwind CSS", "Material-UI", "Next.js",
     "Nuxt.js", "Gatsby", "Svelte", "Ember.js", "Backbone.js",
     "Redux", "MobX", "TensorFlow", "PyTorch", "Keras", "Scikit-learn",
     "Pandas", "NumPy", "Apache Spark", "Hadoop", "Kafka", "RabbitMQ",
     "Selenium", "Cypress", "Jest", "Mocha", "Pytest", "JUnit",
     "TestNG", "Cucumber", "Playwright"]),
   ("databases",
    ["MySQL", "PostgreSQL", "MongoDB", "Oracle", "SQL Server", "SQLite",
     "Redis", "Cassandra", "DynamoDB", "Elasticsearch", "MariaDB",
     "CouchDB", "Neo4j", "Firebase", "Firestore", "Supabase",
     "InfluxDB", "TimescaleDB", "Memcached", "Amazon RDS", "Azure SQL",
     "Google Cloud SQL", "Snowflake", "BigQuery", "Redshift"]),
   ("tools",
    ["Git", "GitHub", "GitLab", "Bitbucket", "Docker", "Kubernetes",
     "Jenkins", "Travis CI", "CircleCI", "GitHub Actions", "GitLab CI",
     "Terraform", "Ansible", "Chef", "Puppet", "Vagrant", "AWS",
     "Azure", "Google Cloud", "GCP", "Heroku", "Netlify", "Vercel",
     "JIRA", "Confluence", "Trello", "Asana", "Slack", "VS Code",
     "Visual Studio", "IntelliJ IDEA", "PyCharm", "Eclipse", "Postman",
     "Insomnia", "Swagger", "Nginx", "Apache", "Linux", "Unix",
     "Windows Server", "Bash", "PowerShell", "Vim", "Emacs",
     "Webpack", "Vite", "Babel", "ESLint", "Prettier", "npm", "yarn",
     "pip", "Maven", "Gradle", "Make", "CMake", "Figma", "Sketch",
     "Adobe XD", "Photoshop", "Illustrator", "Tableau", "Power BI",
     "Grafana", "Prometheus", "Datadog", "New Relic", "Splunk"]),
   ("soft_skills",
    ["Leadership", "Communication", "Teamwork", "Problem Solving",
     "Critical Thinking", "Analytical", "Project Management",
     "Time Management", "Adaptability", "Creativity", "Collaboration",
     "Presentation", "Negotiation", "Conflict Resolution",
     "Decision Making", "Strategic Planning", "Mentoring", "Coaching",
     "Agile", "Scrum", "Kanban", "Stakeholder Management",
     "Client Relations", "Customer Service", "Public Speaking",
     "Writing", "Documentation", "Research", "Innovation",
     "Attention to Detail", "Organization", "Multitasking",
     "Self-motivated", "Proactive", "Results-driven"]),
   ("cloud_platforms",
    ["AWS", "Amazon Web Services", "Azure", "Microsoft Azure",
     "Google Cloud", "GCP", "Google Cloud Platform", "IBM Cloud",
     "Oracle Cloud", "DigitalOcean", "Linode", "Heroku", "Netlify",
     "Vercel", "Cloudflare", "Alibaba Cloud"]),
   ("methodologies",
    ["Agile", "Scrum", "Kanban", "Waterfall", "DevOps", "CI/CD",
     "Test-Driven Development", "TDD", "Behavior-Driven Development",
     "BDD", "Microservices", "RESTful API", "GraphQL", "SOAP",
     "Object-Oriented Programming", "OOP", "Functional Programming",
     "Design Patterns", "MVC", "MVVM", "Clean Architecture",
     "Domain-Driven Design", "DDD"]),
   ("certifications",
    ["AWS Certified", "Azure Certified", "Google Cloud Certified",
     "PMP", "Scrum Master", "CSM", "CISSP", "CompTIA", "CCNA",
     "CCNP", "RHCE", "RHCSA", "CKA", "CKAD", "Oracle Certified",
     "Microsoft Certified", "Salesforce Certified"])]

/-- Python dict update: overwriting an existing key keeps its position. -/
def upsertSkill (k nm : Str) (cat : String) : List (Str × Str × String) → List (Str × Str × String)
  | [] => [(k, nm, cat)]
  | (k', n', c') :: t =>
    if k = k' then (k, nm, cat) :: t else (k', n', c') :: upsertSkill k nm cat t

/-- The `all_skills_lower` dict: key = lowered name, value = (name, category);
built by inserting every category's skills in declaration order, later
categories overwriting earlier entries of the same key in place. -/
def allSkillsLower : List (Str × Str × String) :=
  skillCategories.foldl
    (fun acc p => p.2.foldl (fun acc2 s => upsertSkill (lowerStr s.data) s.data p.1 acc2) acc) []

/-- The `skill_aliases` table, in declaration order. -/
def skillAliases : List (String × String) :=
  [("js", "JavaScript"), ("ts", "TypeScript"), ("py", "Python"),
   ("k8s", "Kubernetes"), ("postgres", "PostgreSQL"), ("mongo", "MongoDB"),
   ("react.js", "React"), ("vue.js", "Vue"), ("node", "Node.js"),
   ("express", "Express.js"), ("next", "Next.js"), ("nuxt", "Nuxt.js"),
   ("tf", "TensorFlow"), ("sklearn", "Scikit-learn"), ("aws", "AWS"),
   ("gcp", "Google Cloud"), ("ci/cd", "CI/CD"), ("rest", "RESTful API"),
   ("oop", "Object-Oriented Programming"), ("tdd", "Test-Driven Development"),
   ("bdd", "Behavior-Driven Development"), ("ddd", "Domain-Driven Design")]

/-- `\b<escaped word>\b` over already-lowered text. -/
def wordRE (w : Str) : RE := catList [.wb, strE w, .wb]

/-- Whole-word mentions of the (lowered) skill in the (lowered) text, as
(start, end) spans. -/
def skillMentions (tl w : Str) : List (Nat × Nat) :=
  (reFinditer (wordRE w) tl).map (fun m => (m.1, m.1 + (capGet m.2 0).length))

/-- The `proficiency_keywords` dict, in insertion (= check) order. -/
def proficiencyKeywords : List (Str × ℚ) :=
  [("expert".data, 20), ("advanced".data, 18), ("proficient".data, 15),
   ("experienced".data, 12), ("skilled".data, 10), ("strong".data, 8),
   ("solid".data, 6), ("familiar".data, 3), ("basic".data, -5),
   ("beginner".data, -10), ("learning".data, -5)]

/-- Factor 2 of `calculate_skill_score`: per mention, the first proficiency
keyword found in the 100-before/100-after window, summed over mentions. -/
def keywordBonus (tl : Str) (ms : List (Nat × Nat)) : ℚ :=
  ms.foldl (fun sc m =>
    let ctx := strSlice tl (m.1 - 100) (min tl.length (m.2 + 100))
    match proficiencyKeywords.find? (fun kv => strContains ctx kv.1) with
    | some kv => sc + kv.2
    | none => sc) 0

/-- The `action_verbs` list of factor 5. -/
def actionVerbs : List Str :=
  ["developed".data, "built".data, "created".data, "designed".data, "implemented".data,
   "architected".data, "led".data, "managed".data, "optimized".data, "deployed".data,
   "maintained".data, "integrated".data, "automated".data, "configured".data]

/-- Whether a mention's 150-before window (through the mention's end)
contains an action verb. -/
def mentionHasVerb (tl : Str) (m : Nat × Nat) : Bool :=
  actionVerbs.any (fun v => strContains (strSlice tl (m.1 - 150) m.2) v)

/-- Factor 5 of `calculate_skill_score`: +10 per mention whose window
contains an action verb (the inner `break` stops only the verb loop). -/
def verbBonus (tl : Str) (ms : List (Nat × Nat)) : ℚ :=
  ms.foldl (fun sc m => if mentionHasVerb tl m then sc + 10 else sc) 0

/-- `(?:years?|yrs?)`. -/
def yrsUnit : RE :=
  altList [catList [strE "year".data, optG (chE 's')],
           catList [strE "yr".data, optG (chE 's')]]

/-- `(\d+)\+?\s*(?:years?|yrs?)`. -/
def yrsRE : RE := catList [.grp 1 (plusG digitRE), optG (chE '+'), starG wsRE, yrsUnit]

/-- `[\(\[](\d+)\+?\s*(?:years?|yrs?)[\)\]]`. -/
def parenYrsRE : RE :=
  catList [.cls (fun c => c = '(' || c = '['), .grp 1 (plusG digitRE), optG (chE '+'),
           starG wsRE, yrsUnit, .cls (fun c => c = ')' || c = ']')]

/-- The mention loop of `extract_experience_years`: first mention whose
200-char window holds a years pattern wins, largest number in the window. -/
def yearsLoop (tl : Str) : List (Nat × Nat) → Option ℤ
  | [] => none
  | m :: rest =>
    let ctx := strSlice tl (m.1 - 200) (min tl.length (m.2 + 200))
    match maxIntList ((findallG1 yrsRE ctx).map digitsToInt) with
    | some y => some y
    | none =>
      match maxIntList ((findallG1 parenYrsRE ctx).map digitsToInt) with
      | some y => some y
      | none => yearsLoop tl rest

/-- `SkillAnalyzer.extract_experience_years`. -/
def extractExperienceYears (text skill : Str) : Option ℤ :=
  yearsLoop (lowerStr text) (skillMentions (lowerStr text) (lowerStr skill))

def skillsSectionKeywords : List Str :=
  ["skills".data, "technical skills".data, "competencies".data, "expertise".data]

/-- The common-section list of `_extract_skills_section`. -/
def commonSectionsB : List Str :=
  ["experience".data, "work".data, "employment".data, "education".data, "projects".data,
   "certifications".data, "awards".data, "publications".data, "references".data,
   "interests".data]

def skillsStartIdx (lines : List Str) : Option Nat :=
  lines.findIdx? (fun line =>
    let ls := pyStrip line
    skillsSectionKeywords.any (fun kw => strContains ls kw) && decide (ls.length < 50))

def skillsEndIdx (lines : List Str) (start : Nat) : Nat :=
  match (lines.drop (start + 1)).findIdx? (fun line =>
      let ls := pyStrip line
      decide (ls.length < 50) && commonSectionsB.any (fun sc =>
        match firstIdxOf ls sc with
        | some j => decide (j < 5)
        | none => false)) with
  | some k => start + 1 + k
  | none => lines.length

/-- `SkillAnalyzer._extract_skills_section` (the input is already lowered). -/
def extractSkillsSection (tl : Str) : Option Str :=
  let lines := splitNL tl
  match skillsStartIdx lines with
  | none => none
  | some st => some (joinNL ((lines.drop st).take (skillsEndIdx lines st - st)))

/-- Factor 1 of `calculate_skill_score`. -/
def freqBonus (mentions : ℕ) : ℚ :=
  if 5 ≤ mentions then 20 else if 3 ≤ mentions then 15
  else if 2 ≤ mentions then 10 else if 1 ≤ mentions then 5 else 0

/-- Factor 3 of `calculate_skill_score` (`0` years is falsy in Python, and
gets no bonus here either). -/
def yearsBonus : Option ℤ → ℚ
  | some y => if 5 ≤ y then 15 else if 3 ≤ y then 10 else if 1 ≤ y then 5 else 0
  | none => 0

/-- Factor 4 of `calculate_skill_score`: +10 when the lowered skill occurs
as a substring of the detected skills section. -/
def sectionBonus (tl sl : Str) : ℚ :=
  match extractSkillsSection tl with
  | some sec => if !sec.isEmpty && strContains sec sl then 10 else 0
  | none => 0

/-- `SkillAnalyzer.calculate_skill_score`: 50 base plus the five factors,
clamped to [0, 100], rounded to one decimal. -/
def calculateSkillScore (skill text : Str) : ℚ :=
  let sl := lowerStr skill
  let tl := lowerStr text
  let ms := skillMentions tl sl
  round1 (max 0 (min 100 (50 + freqBonus ms.length + keywordBonus tl ms
    + yearsBonus (extractExperienceYears text skill) + sectionBonus tl sl + verbBonus tl ms)))

structure SkillRecord where
  name : Str
  category : String
  score : ℚ
  years : Option ℤ
deriving DecidableEq

/-- `SkillAnalyzer._get_skill_category`: first category whose list contains
the name. -/
def getSkillCategory (nm : Str) : Option String :=
  (skillCategories.find? (fun p => p.2.any (fun s => s.data = nm))).map (fun p => p.1)

def mkSkillRecord (nm : Str) (cat : String) (text : Str) : SkillRecord :=
  ⟨nm, cat, calculateSkillScore nm text, extractExperienceYears text nm⟩

/-- Pass 1 of `analyze_skills`: whole-word taxonomy matches over the lowered
text, keyed by the lowered canonical name, first hit wins. -/
def analyzePass1 (text tl : Str) : List (Str × SkillRecord) :=
  allSkillsLower.foldl (fun acc e =>
    if reTest (wordRE e.1) tl then
      let key := lowerStr e.2.1
      if acc.any (fun kv => kv.1 = key) then acc
      else acc ++ [(key, mkSkillRecord e.2.1 e.2.2 text)]
    else acc) []

/-- Pass 2 of `analyze_skills`: whole-word alias matches mapped to canonical
names, skipped when the canonical key is already present or the category
lookup fails. -/
def analyzePass2 (text tl : Str) (acc0 : List (Str × SkillRecord)) : List (Str × SkillRecord) :=
  skillAliases.foldl (fun acc a =>
    if reTest (wordRE a.1.data) tl then
      let key := lowerStr a.2.data
      if acc.any (fun kv => kv.1 = key) then acc
      else
        match getSkillCategory a.2.data with
        | some cat => acc ++ [(key, mkSkillRecord a.2.data cat text)]
        | none => acc
    else acc) acc0

/-- The sort key of `analyze_skills`: descending score, stable. -/
def scoreDescLe (a b : SkillRecord) : Bool := decide (b.score ≤ a.score)

/-- `SkillAnalyzer.analyze_skills`. -/
def analyzeSkills (text : Str) : List SkillRecord :=
  let tl := lowerStr text
  insortLe scoreDescLe ((analyzePass2 text tl (analyzePass1 text tl)).map (fun kv => kv.2))

/-- The taxonomy's declaration order as one flat list. -/
def taxonomyOrder : List String :=
  skillCategories.foldl (fun acc p => acc ++ p.2) []

/-! ## Rounding lemmas -/

theorem ratFloor_le (q : ℚ) : (Rat.floor q : ℚ) ≤ q := Rat.le_floor.mp le_rfl

theorem lt_ratFloor_add_one (q : ℚ) : q < (Rat.floor q : ℚ) + 1 := by
  by_contra h
  push_neg at h
  have h2 : (Rat.floor q + 1 : ℤ) ≤ Rat.floor q := Rat.le_floor.mpr (by push_cast; linarith)
  omega

theorem pyRound_cases (q : ℚ) :
    pyRound q = Rat.floor q ∨
      (pyRound q = Rat.floor q + 1 ∧ (1 : ℚ)/2 ≤ q - (Rat.floor q : ℚ)) := by
  unfold pyRound
  split
  · exact Or.inl rfl
  · next h1 =>
    have h1' : (1 : ℚ)/2 ≤ q - (Rat.floor q : ℚ) := by linarith [not_lt.mp h1]
    split
    · exact Or.inr ⟨rfl, h1'⟩
    · split
      · exact Or.inl rfl
      · exact Or.inr ⟨rfl, h1'⟩

theorem pyRound_err (q : ℚ) : |(pyRound q : ℚ) - q| ≤ 1/2 := by
  have hf := ratFloor_le q
  have hc := lt_ratFloor_add_one q
  unfold pyRound
  split
  · next h => rw [abs_le]; constructor <;> linarith
  · next h1 =>
    have h1' : (1 : ℚ)/2 ≤ q - (Rat.floor q : ℚ) := by linarith [not_lt.mp h1]
    split
    · next h2 => rw [abs_le]; push_cast; constructor <;> linarith
    · split
      · rw [abs_le]; constructor <;> linarith
      · rw [abs_le]; push_cast; constructor <;> linarith

theorem pyRound_bounds {a b : ℤ} {q : ℚ} (ha : (a : ℚ) ≤ q) (hb : q ≤ (b : ℚ)) :
    a ≤ pyRound q ∧ pyRound q ≤ b := by
  have hfa : a ≤ Rat.floor q := Rat.le_floor.mpr ha
  have hfb : Rat.floor q ≤ b := by
    by_contra h
    push_neg at h
    have : (b + 1 : ℤ) ≤ Rat.floor q := h
    have : ((b : ℚ) + 1) ≤ (Rat.floor q : ℚ) := by exact_mod_cast this
    linarith [ratFloor_le q]
  rcases pyRound_cases q with h | ⟨h, hhalf⟩
  · exact ⟨by omega, by omega⟩
  · have hlt : Rat.floor q < b := by
      by_contra hcon
      push_neg at hcon
      have : Rat.floor q = b := le_antisymm hfb hcon
      rw [this] at hhalf
      linarith
    exact ⟨by omega, by omega⟩

theorem round2_err (q : ℚ) : |round2 q - q| ≤ 1/200 := by
  have h := pyRound_err (q * 100)
  rw [abs_le] at h ⊢
  unfold round2
  constructor <;> [skip; skip] <;> [linarith [h.1, h.2]; linarith [h.1, h.2]]

theorem round2_bounds {a b : ℤ} {q : ℚ} (ha : (a : ℚ) ≤ q) (hb : q ≤ (b : ℚ)) :
    (a : ℚ) ≤ round2 q ∧ round2 q ≤ (b : ℚ) := by
  have ha' : ((a * 100 : ℤ) : ℚ) ≤ q * 100 := by push_cast; linarith
  have hb' : q * 100 ≤ ((b * 100 : ℤ) : ℚ) := by push_cast; linarith
  have h := pyRound_bounds ha' hb'
  have h1 : ((a * 100 : ℤ) : ℚ) ≤ (pyRound (q * 100) : ℚ) := by exact_mod_cast h.1
  have h2 : ((pyRound (q * 100) : ℤ) : ℚ) ≤ ((b * 100 : ℤ) : ℚ) := by exact_mod_cast h.2
  unfold round2
  push_cast at h1 h2 ⊢
  constructor <;> linarith

/-! ## String lemmas -/

theorem startsWithStr_iff : ∀ (h n : Str), startsWithStr h n = true ↔ ∃ r, h = n ++ r := by
  intro h n
  induction n generalizing h with
  | nil => simp [startsWithStr]
  | cons d m ih =>
    cases h with
    | nil => simp [startsWithStr]
    | cons c t =>
      simp only [startsWithStr, Bool.and_eq_true, decide_eq_true_eq, ih]
      constructor
      · rintro ⟨rfl, r, rfl⟩
        exact ⟨r, rfl⟩
      · rintro ⟨r, hr⟩
        injection hr with h1 h2
        exact ⟨h1, r, h2⟩

theorem strContains_iff : ∀ (h n : Str), strContains h n = true ↔ ∃ u v, h = u ++ n ++ v := by
  intro h n
  induction h with
  | nil =>
    simp only [strContains, startsWithStr_iff]
    constructor
    · rintro ⟨r, hr⟩
      exact ⟨[], r, hr⟩
    · rintro ⟨u, v, huv⟩
      have hu : u = [] := by
        cases u with
        | nil => rfl
        | cons a b => simp at huv
      subst hu
      exact ⟨v, huv⟩
  | cons c t ih =>
    simp only [strContains, Bool.or_eq_true, startsWithStr_iff, ih]
    constructor
    · rintro (⟨r, hr⟩ | ⟨u, v, huv⟩)
      · exact ⟨[], r, hr⟩
      · exact ⟨c :: u, v, by simp [huv]⟩
    · rintro ⟨u, v, huv⟩
      cases u with
      | nil => exact Or.inl ⟨v, by simpa using huv⟩
      | cons a b =>
        injection huv with h1 h2
        exact Or.inr ⟨b, v, h2⟩

theorem strContains_trans {a b c : Str} (hab : strContains b a = true)
    (hbc : strContains c b = true) : strContains c a = true := by
  rw [strContains_iff] at hab hbc ⊢
  obtain ⟨u1, v1, h1⟩ := hab
  obtain ⟨u2, v2, h2⟩ := hbc
  subst h1
  exact ⟨u2 ++ u1, v1 ++ v2, by simp [h2]⟩

theorem splitNL_ne_nil : ∀ s : Str, splitNL s ≠ [] := by
  intro s
  cases s with
  | nil => simp [splitNL]
  | cons c t =>
    simp only [splitNL]
    split
    · simp
    · split <;> simp

theorem joinNL_splitNL : ∀ s : Str, joinNL (splitNL s) = s := by
  intro s
  induction s with
  | nil => rfl
  | cons c t ih =>
    simp only [splitNL]
    split
    · next hc =>
      obtain ⟨l, ls, hls⟩ := List.exists_cons_of_ne_nil (splitNL_ne_nil t)
      rw [hls]
      rw [hls] at ih
      simp only [joinNL]
      rw [ih, hc]
      rfl
    · next hc =>
      cases hls : splitNL t with
      | nil => exact absurd hls (splitNL_ne_nil t)
      | cons l ls =>
        rw [hls] at ih
        cases ls with
        | nil =>
          simp only [joinNL] at ih ⊢
          rw [ih]
        | cons x xs =>
          simp only [joinNL] at ih ⊢
          rw [List.cons_append, ih]

theorem joinNL_take_prefix : ∀ (L : List Str) (k : Nat), ∃ r, joinNL L = joinNL (L.take k) ++ r := by
  intro L
  induction L with
  | nil => intro k; exact ⟨[], by simp [joinNL]⟩
  | cons l t ih =>
    intro k
    cases k with
    | zero => exact ⟨joinNL (l :: t), by simp [joinNL]⟩
    | succ k' =>
      cases t with
      | nil => exact ⟨[], by simp [joinNL]⟩
      | cons x xs =>
        obtain ⟨r, hr⟩ := ih k'
        cases htk : (x :: xs).take k' with
        | nil =>
          refine ⟨'\n' :: joinNL (x :: xs), ?_⟩
          rw [List.take_succ_cons, htk]
          simp [joinNL]
        | cons y ys =>
          refine ⟨r, ?_⟩
          rw [List.take_succ_cons, htk]
          simp only [joinNL]
          rw [htk] at hr
          rw [hr]
          simp

theorem joinNL_drop_suffix : ∀ (L : List Str) (a : Nat), ∃ u, joinNL L = u ++ joinNL (L.drop a) := by
  intro L
  induction L with
  | nil => intro a; exact ⟨[], by simp⟩
  | cons l t ih =>
    intro a
    cases a with
    | zero => exact ⟨[], by simp⟩
    | succ a' =>
      obtain ⟨u, hu⟩ := ih a'
      cases t with
      | nil =>
        refine ⟨l, ?_⟩
        simp [joinNL]
      | cons x xs =>
        refine ⟨l ++ '\n' :: u, ?_⟩
        simp only [joinNL, List.drop_succ_cons]
        rw [hu]
        simp

theorem joinNL_slice_infix (L : List Str) (a k : Nat) :
    ∃ u v, joinNL L = u ++ joinNL ((L.drop a).take k) ++ v := by
  obtain ⟨u, hu⟩ := joinNL_drop_suffix L a
  obtain ⟨r, hr⟩ := joinNL_take_prefix (L.drop a) k
  exact ⟨u, r, by rw [hu, hr, List.append_assoc]⟩

/-! ## Insertion-sort lemmas -/

theorem mem_insertLe {le : α → α → Bool} {a x : α} : ∀ {l : List α},
    x ∈ insertLe le a l ↔ x = a ∨ x ∈ l := by
  intro l
  induction l with
  | nil => simp [insertLe]
  | cons b t ih =>
    simp only [insertLe]
    split
    · simp [or_comm, or_assoc, or_left_comm]
    · simp only [List.mem_cons, ih]
      tauto

theorem insertLe_perm (le : α → α → Bool) (a : α) : ∀ (l : List α),
    (insertLe le a l).Perm (a :: l) := by
  intro l
  induction l with
  | nil => simp [insertLe]
  | cons b t ih =>
    simp only [insertLe]
    split
    · exact List.Perm.refl _
    · exact (List.Perm.cons b ih).trans (List.Perm.swap a b t)

theorem insortLe_perm (le : α → α → Bool) : ∀ (l : List α), (insortLe le l).Perm l := by
  intro l
  induction l with
  | nil => exact List.Perm.refl _
  | cons a t ih =>
    simp only [insortLe]
    exact (insertLe_perm le a (insortLe le t)).trans (List.Perm.cons a ih)

theorem mem_insortLe {le : α → α → Bool} {x : α} {l : List α} :
    x ∈ insortLe le l ↔ x ∈ l :=
  (insortLe_perm le l).mem_iff

theorem insertLe_pairwise {le : α → α → Bool}
    (htot : ∀ a b, le a b = true ∨ le b a = true)
    (htrans : ∀ a b c, le a b = true → le b c = true → le a c = true)
    (a : α) : ∀ {l : List α}, l.Pairwise (fun x y => le x y = true) →
      (insertLe le a l).Pairwise (fun x y => le x y = true) := by
  intro l
  induction l with
  | nil => intro _; simp [insertLe]
  | cons b t ih =>
    intro hp
    rcases List.pairwise_cons.mp hp with ⟨hb, ht⟩
    simp only [insertLe]
    split
    · next hab =>
      refine List.pairwise_cons.mpr ⟨?_, hp⟩
      intro x hx
      rcases List.mem_cons.mp hx with rfl | hx'
      · exact hab
      · exact htrans a b x hab (hb x hx')
    · next hab =>
      have hba : le b a = true := (htot a b).resolve_left (by simpa using hab)
      refine List.pairwise_cons.mpr ⟨?_, ih ht⟩
      intro x hx
      rcases mem_insertLe.mp hx with rfl | hx'
      · exact hba
      · exact hb x hx'

theorem insortLe_pairwise {le : α → α → Bool}
    (htot : ∀ a b, le a b = true ∨ le b a = true)
    (htrans : ∀ a b c, le a b = true → le b c = true → le a c = true) :
    ∀ (l : List α), (insortLe le l).Pairwise (fun x y => le x y = true) := by
  intro l
  induction l with
  | nil => simp [insortLe]
  | cons a t ih =>
    simp only [insortLe]
    exact insertLe_pairwise htot htrans a ih

theorem insortLe_eq_of_perm {le : α → α → Bool}
    (htot : ∀ a b, le a b = true ∨ le b a = true)
    (htrans : ∀ a b c, le a b = true → le b c = true → le a c = true)
    (hanti : ∀ a b, le a b = true → le b a = true → a = b)
    {l l' : List α} (h : l.Perm l') : insortLe le l = insortLe le l' := by
  haveI : IsAntisymm α (fun x y => le x y = true) := ⟨hanti⟩
  refine List.eq_of_perm_of_sorted ?_ (insortLe_pairwise htot htrans l) (insortLe_pairwise htot htrans l')
  exact ((insortLe_perm le l).trans h).trans (insortLe_perm le l').symm

/-! ## Merge-loop lemmas -/

theorem sumRangeLens_cons (p : ℤ × ℤ) (l : List (ℤ × ℤ)) :
    sumRangeLens (p :: l) = (p.2 - p.1) + sumRangeLens l := by
  simp [sumRangeLens]

theorem sumRangeLens_perm {l l' : List (ℤ × ℤ)} (h : l.Perm l') :
    sumRangeLens l = sumRangeLens l' := by
  simp only [sumRangeLens]
  exact (h.map (fun p => p.2 - p.1)).sum_eq

theorem mergeLoop_nonneg : ∀ (rest : List (ℤ × ℤ)) (cs ce : ℤ), cs ≤ ce →
    (∀ p ∈ rest, p.1 ≤ p.2) → 0 ≤ sumRangeLens (mergeLoop cs ce rest) := by
  intro rest
  induction rest with
  | nil =>
    intro cs ce h _
    simp only [mergeLoop, sumRangeLens, List.map_cons, List.map_nil, List.sum_cons, List.sum_nil]
    omega
  | cons q t ih =>
    intro cs ce hce hall
    obtain ⟨s, e⟩ := q
    have hse : s ≤ e := hall (s, e) (by simp)
    have htail : ∀ p ∈ t, p.1 ≤ p.2 := fun p hp => hall p (by simp [hp])
    simp only [mergeLoop]
    split
    · exact ih cs (max ce e) (le_trans hce (le_max_left _ _)) htail
    · rw [sumRangeLens_cons]
      have := ih s e hse htail
      omega

theorem mergeLoop_le : ∀ (rest : List (ℤ × ℤ)) (cs ce : ℤ),
    (∀ p ∈ rest, p.1 ≤ p.2) →
    sumRangeLens (mergeLoop cs ce rest) ≤ (ce - cs) + sumRangeLens rest := by
  intro rest
  induction rest with
  | nil =>
    intro cs ce _
    simp [mergeLoop, sumRangeLens]
  | cons q t ih =>
    intro cs ce hall
    obtain ⟨s, e⟩ := q
    have hse : s ≤ e := hall (s, e) (by simp)
    have htail : ∀ p ∈ t, p.1 ≤ p.2 := fun p hp => hall p (by simp [hp])
    simp only [mergeLoop]
    split
    · next hsc =>
      have h1 := ih cs (max ce e) htail
      rw [sumRangeLens_cons]
      have hmax : max ce e ≤ ce + e - s := by
        rcases max_cases ce e with ⟨hm, _⟩ | ⟨hm, _⟩ <;> omega
      omega
    · rw [sumRangeLens_cons, sumRangeLens_cons]
      have h1 := ih s e htail
      omega

theorem lexLe_total : ∀ a b : ℤ × ℤ, lexLe a b = true ∨ lexLe b a = true := by
  intro a b
  simp only [lexLe, Bool.or_eq_true, Bool.and_eq_true, decide_eq_true_eq]
  omega

theorem lexLe_trans : ∀ a b c : ℤ × ℤ, lexLe a b = true → lexLe b c = true → lexLe a c = true := by
  intro a b c
  simp only [lexLe, Bool.or_eq_true, Bool.and_eq_true, decide_eq_true_eq]
  omega

theorem lexLe_antisymm : ∀ a b : ℤ × ℤ, lexLe a b = true → lexLe b a = true → a = b := by
  intro a b
  obtain ⟨a1, a2⟩ := a
  obtain ⟨b1, b2⟩ := b
  simp only [lexLe, Bool.or_eq_true, Bool.and_eq_true, decide_eq_true_eq, Prod.mk.injEq]
  omega

theorem calcTotalExperience_perm {l l' : List (ℤ × ℤ)} (h : l.Perm l') :
    calcTotalExperience l = calcTotalExperience l' := by
  unfold calcTotalExperience
  rw [insortLe_eq_of_perm lexLe_total lexLe_trans lexLe_antisymm h]

theorem calcTotalExperience_nonneg {l : List (ℤ × ℤ)} (h : ∀ p ∈ l, p.1 ≤ p.2) :
    0 ≤ calcTotalExperience l := by
  unfold calcTotalExperience
  have hperm := insortLe_perm lexLe l
  have hall : ∀ p ∈ insortLe lexLe l, p.1 ≤ p.2 := fun p hp => h p (hperm.mem_iff.mp hp)
  cases hs : insortLe lexLe l with
  | nil => simp
  | cons q rest =>
    obtain ⟨s, e⟩ := q
    rw [hs] at hall
    exact mergeLoop_nonneg rest s e (hall (s, e) (by simp)) (fun p hp => hall p (by simp [hp]))

theorem calcTotalExperience_le_sum {l : List (ℤ × ℤ)} (h : ∀ p ∈ l, p.1 ≤ p.2) :
    calcTotalExperience l ≤ sumRangeLens l := by
  unfold calcTotalExperience
  have hperm := insortLe_perm lexLe l
  have hall : ∀ p ∈ insortLe lexLe l, p.1 ≤ p.2 := fun p hp => h p (hperm.mem_iff.mp hp)
  have hsum : sumRangeLens (insortLe lexLe l) = sumRangeLens l := sumRangeLens_perm hperm
  cases hs : insortLe lexLe l with
  | nil =>
    rw [hs] at hsum
    show (0 : ℤ) ≤ sumRangeLens l
    rw [← hsum]
    simp [sumRangeLens]
  | cons q rest =>
    obtain ⟨s, e⟩ := q
    rw [hs] at hall hsum
    have h1 := mergeLoop_le rest s e (fun p hp => hall p (by simp [hp]))
    rw [sumRangeLens_cons] at hsum
    show sumRangeLens (mergeLoop s e rest) ≤ sumRangeLens l
    omega

/-! ## Matcher lemmas: a successful whole-word search implies a substring -/

theorem matchRE_strE_prefix : ∀ (w : Str) (fuel : Nat) (p : Option Char) (s : Str)
    (caps : List (Nat × Str)) (k : MK) (res : List (Nat × Str) × Str),
    matchRE fuel (strE w) p s caps k = some res → ∃ s', s = w ++ s' := by
  intro w
  induction w with
  | nil =>
    intro fuel p s caps k res _
    exact ⟨s, rfl⟩
  | cons c w' ih =>
    intro fuel p s caps k res h
    cases fuel with
    | zero => simp [matchRE] at h
    | succ f =>
      cases f with
      | zero => simp [strE, matchRE] at h
      | succ f' =>
        cases s with
        | nil => simp [strE, matchRE, chE] at h
        | cons d rest =>
          simp only [strE, List.foldr_cons, matchRE, chE] at h
          split at h
          · next hdc =>
            have hdc' : d = c := by simpa using hdc
            subst hdc'
            obtain ⟨s', hs'⟩ := ih (f' + 1) (some d) rest caps k res h
            exact ⟨s', by simp [hs']⟩
          · exact absurd h (by simp)

theorem matchRE_grp_eq (fuel : Nat) (i : Nat) (a : RE) (p : Option Char) (s : Str)
    (caps : List (Nat × Str)) (k : MK) :
    matchRE (fuel + 1) (.grp i a) p s caps k =
      matchRE fuel a p s caps
        (fun p' s' c' => k p' s' (setCap i (s.take (s.length - s'.length)) c')) := rfl

theorem matchRE_cat_eq (fuel : Nat) (a b : RE) (p : Option Char) (s : Str)
    (caps : List (Nat × Str)) (k : MK) :
    matchRE (fuel + 1) (.cat a b) p s caps k =
      matchRE fuel a p s caps (fun p' s' c' => matchRE fuel b p' s' c' k) := rfl

theorem matchRE_wb_some {fuel : Nat} {p : Option Char} {s : Str}
    {caps : List (Nat × Str)} {k : MK} {res : List (Nat × Str) × Str}
    (h : matchRE (fuel + 1) .wb p s caps k = some res) : k p s caps = some res := by
  simp only [matchRE] at h
  split at h
  · exact h
  · exact absurd h (by simp)

theorem matchRE_wordRE_prefix (w : Str) (fuel : Nat) (p : Option Char) (s : Str)
    (caps : List (Nat × Str)) (k : MK) (res : List (Nat × Str) × Str) :
    matchRE fuel (.grp 0 (wordRE w)) p s caps k = some res → ∃ s', s = w ++ s' := by
  intro h
  cases fuel with
  | zero => simp [matchRE] at h
  | succ a =>
    rw [matchRE_grp_eq] at h
    cases a with
    | zero => simp [matchRE] at h
    | succ b =>
      have hw : wordRE w = .cat .wb (.cat (strE w) (.cat .wb .eps)) := rfl
      rw [hw, matchRE_cat_eq] at h
      cases b with
      | zero => simp [matchRE] at h
      | succ c =>
        have h2 := matchRE_wb_some h
        simp only at h2
        rw [matchRE_cat_eq] at h2
        exact matchRE_strE_prefix w c p s caps _ res h2

theorem reSearchAux_infix (w : Str) : ∀ (s : Str) (p : Option Char) (pos : Nat)
    (res : Nat × List (Nat × Str) × Str),
    reSearchAux (.grp 0 (wordRE w)) p pos s = some res → ∃ u v, s = u ++ w ++ v := by
  intro s
  induction s with
  | nil =>
    intro p pos res h
    simp only [reSearchAux] at h
    cases hm : matchRE matchFuel (.grp 0 (wordRE w)) p [] [] (fun _ s' caps => some (caps, s')) with
    | none => rw [hm] at h; simp at h
    | some x =>
      obtain ⟨s', hs'⟩ := matchRE_wordRE_prefix w matchFuel p [] [] _ x hm
      exact ⟨[], s', by simp [hs']⟩
  | cons ch t ih =>
    intro p pos res h
    simp only [reSearchAux] at h
    cases hm : matchRE matchFuel (.grp 0 (wordRE w)) p (ch :: t) [] (fun _ s' caps => some (caps, s')) with
    | none =>
      rw [hm] at h
      obtain ⟨u, v, huv⟩ := ih (some ch) (pos + 1) res h
      exact ⟨ch :: u, v, by simp [huv]⟩
    | some x =>
      obtain ⟨s', hs'⟩ := matchRE_wordRE_prefix w matchFuel p (ch :: t) [] _ x hm
      exact ⟨[], s', by simp [hs']⟩

theorem reSearchAux_none_of_not_contains {w tl : Str} (h : strContains tl w = false) :
    reSearchAux (.grp 0 (wordRE w)) none 0 tl = none := by
  cases hm : reSearchAux (.grp 0 (wordRE w)) none 0 tl with
  | none => rfl
  | some res =>
    obtain ⟨u, v, huv⟩ := reSearchAux_infix w tl none 0 res hm
    have ht : strContains tl w = true := (strContains_iff tl w).mpr ⟨u, v, huv⟩
    rw [ht] at h
    cases h

theorem skillMentions_nil {tl w : Str} (h : strContains tl w = false) :
    skillMentions tl w = [] := by
  unfold skillMentions reFinditer
  simp only [finditerGo, reSearchAux_none_of_not_contains h, List.map_nil]

/-! ## The skills section is a contiguous piece of the text -/

theorem extractSkillsSection_infix {tl sec : Str} (h : extractSkillsSection tl = some sec) :
    ∃ u v, tl = u ++ sec ++ v := by
  unfold extractSkillsSection at h
  dsimp only at h
  cases hst : skillsStartIdx (splitNL tl) with
  | none => rw [hst] at h; simp at h
  | some st =>
    rw [hst] at h
    simp only [Option.some.injEq] at h
    obtain ⟨u, v, huv⟩ := joinNL_slice_infix (splitNL tl) st (skillsEndIdx (splitNL tl) st - st)
    rw [joinNL_splitNL] at huv
    exact ⟨u, v, by rw [← h]; exact huv⟩

/-! ## A skill whose lowered name is nowhere in the lowered text scores the
base 50 and gets no years -/

theorem extractExperienceYears_none {skill text : Str}
    (h : strContains (lowerStr text) (lowerStr skill) = false) :
    extractExperienceYears text skill = none := by
  unfold extractExperienceYears
  rw [skillMentions_nil h]
  rfl

theorem calculateSkillScore_base {skill text : Str}
    (h : strContains (lowerStr text) (lowerStr skill) = false) :
    calculateSkillScore skill text = 50 := by
  unfold calculateSkillScore
  dsimp only
  rw [skillMentions_nil h, extractExperienceYears_none h]
  have hsec : sectionBonus (lowerStr text) (lowerStr skill) = 0 := by
    unfold sectionBonus
    cases hs : extractSkillsSection (lowerStr text) with
    | none => rfl
    | some sec =>
      have hcon : strContains sec (lowerStr skill) = false := by
        cases hc : strContains sec (lowerStr skill) with
        | false => rfl
        | true =>
          obtain ⟨u, v, huv⟩ := extractSkillsSection_infix hs
          have : strContains (lowerStr text) sec = true :=
            (strContains_iff _ _).mpr ⟨u, v, huv⟩
          rw [strContains_trans hc this] at h
          cases h
      simp [hcon]
  rw [hsec]
  norm_num [freqBonus, keywordBonus, yearsBonus, verbBonus]
  with_unfolding_all decide

/-! ## Invariants of the two analysis passes -/

theorem foldl_keyed_invariant {γ : Type} (P : Str × SkillRecord → Prop)
    (f : List (Str × SkillRecord) → γ → List (Str × SkillRecord))
    (hf : ∀ acc x, f acc x = acc ∨
      ∃ kv, P kv ∧ (acc.any (fun e => e.1 = kv.1)) = false ∧ f acc x = acc ++ [kv]) :
    ∀ (l : List γ) (acc : List (Str × SkillRecord)),
      acc.Pairwise (fun a b => a.1 ≠ b.1) → (∀ kv ∈ acc, P kv) →
      (l.foldl f acc).Pairwise (fun a b => a.1 ≠ b.1) ∧ ∀ kv ∈ l.foldl f acc, P kv := by
  intro l
  induction l with
  | nil => intro acc h1 h2; exact ⟨h1, h2⟩
  | cons x t ih =>
    intro acc h1 h2
    simp only [List.foldl_cons]
    rcases hf acc x with heq | ⟨kv, hP, hany, heq⟩
    · rw [heq]; exact ih acc h1 h2
    · rw [heq]
      apply ih
      · rw [List.pairwise_append]
        refine ⟨h1, List.pairwise_singleton _ _, ?_⟩
        intro a ha b hb
        simp only [List.mem_singleton] at hb
        intro hcontra
        rw [hb] at hcontra
        have hx : acc.any (fun e => e.1 = kv.1) = true := by
          rw [List.any_eq_true]
          exact ⟨a, ha, by simp [hcontra]⟩
        rw [hx] at hany
        cases hany
      · intro kv' hkv'
        rcases List.mem_append.mp hkv' with hm | hm
        · exact h2 kv' hm
        · simp only [List.mem_singleton] at hm
          subst hm
          exact hP

theorem analyzePass1_invariant (text tl : Str) :
    (analyzePass1 text tl).Pairwise (fun a b => a.1 ≠ b.1) ∧
    ∀ kv ∈ analyzePass1 text tl, kv.1 = lowerStr kv.2.name ∧
      kv.2.score = calculateSkillScore kv.2.name text ∧
      kv.2.years = extractExperienceYears text kv.2.name := by
  unfold analyzePass1
  refine foldl_keyed_invariant
    (fun kv => kv.1 = lowerStr kv.2.name ∧
      kv.2.score = calculateSkillScore kv.2.name text ∧
      kv.2.years = extractExperienceYears text kv.2.name) _ ?_ allSkillsLower []
    List.Pairwise.nil (fun kv h => absurd h (List.not_mem_nil kv))
  intro acc e
  dsimp only
  split
  · split
    · exact Or.inl rfl
    · next hany =>
      refine Or.inr ⟨(lowerStr e.2.1, mkSkillRecord e.2.1 e.2.2 text), ⟨rfl, rfl, rfl⟩, ?_, rfl⟩
      simp only [Bool.not_eq_true] at hany
      exact hany
  · exact Or.inl rfl

theorem analyzePass2_invariant (text tl : Str) (acc0 : List (Str × SkillRecord))
    (h1 : acc0.Pairwise (fun a b => a.1 ≠ b.1))
    (h2 : ∀ kv ∈ acc0, kv.1 = lowerStr kv.2.name ∧
      kv.2.score = calculateSkillScore kv.2.name text ∧
      kv.2.years = extractExperienceYears text kv.2.name) :
    (analyzePass2 text tl acc0).Pairwise (fun a b => a.1 ≠ b.1) ∧
    ∀ kv ∈ analyzePass2 text tl acc0, kv.1 = lowerStr kv.2.name ∧
      kv.2.score = calculateSkillScore kv.2.name text ∧
      kv.2.years = extractExperienceYears text kv.2.name := by
  unfold analyzePass2
  refine foldl_keyed_invariant
    (fun kv => kv.1 = lowerStr kv.2.name ∧
      kv.2.score = calculateSkillScore kv.2.name text ∧
      kv.2.years = extractExperienceYears text kv.2.name) _ ?_ skillAliases acc0 h1 h2
  intro acc a
  dsimp only
  split
  · split
    · exact Or.inl rfl
    · next hany =>
      cases hcat : getSkillCategory a.2.data with
      | none => exact Or.inl rfl
      | some cat =>
        refine Or.inr ⟨(lowerStr a.2.data, mkSkillRecord a.2.data cat text), ⟨rfl, rfl, rfl⟩, ?_, rfl⟩
        simp only [Bool.not_eq_true] at hany
        exact hany
  · exact Or.inl rfl

theorem analyzeSkills_mem (text : Str) (r : SkillRecord) (hr : r ∈ analyzeSkills text) :
    r.score = calculateSkillScore r.name text ∧
    r.years = extractExperienceYears text r.name := by
  unfold analyzeSkills at hr
  dsimp only at hr
  rw [mem_insortLe] at hr
  obtain ⟨kv, hkv, hkv2⟩ := List.mem_map.mp hr
  obtain ⟨hi1, hi2⟩ := analyzePass1_invariant text (lowerStr text)
  obtain ⟨-, hP⟩ := analyzePass2_invariant text (lowerStr text) _ hi1 hi2
  have hp := hP kv hkv
  rw [← hkv2]
  exact ⟨hp.2.1, hp.2.2⟩

theorem analyzeSkills_unique (text : Str) :
    (analyzeSkills text).Pairwise (fun a b => lowerStr a.name ≠ lowerStr b.name) := by
  unfold analyzeSkills
  dsimp only
  obtain ⟨hi1, hi2⟩ := analyzePass1_invariant text (lowerStr text)
  obtain ⟨hp1, hp2⟩ := analyzePass2_invariant text (lowerStr text) _ hi1 hi2
  have hkeys : (analyzePass2 text (lowerStr text) (analyzePass1 text (lowerStr text))).Pairwise
      (fun a b => lowerStr a.2.name ≠ lowerStr b.2.name) := by
    refine hp1.imp_of_mem ?_
    intro a b ha hb hne
    rw [(hp2 a ha).1, (hp2 b hb).1] at hne
    exact hne
  have hmap : ((analyzePass2 text (lowerStr text) (analyzePass1 text (lowerStr text))).map
      (fun kv => kv.2)).Pairwise (fun a b => lowerStr a.name ≠ lowerStr b.name) :=
    List.pairwise_map.mpr hkeys
  exact ((insortLe_perm scoreDescLe _).pairwise_iff
    (fun h => Ne.symm h)).mpr hmap

theorem scoreDescLe_total : ∀ a b : SkillRecord, scoreDescLe a b = true ∨ scoreDescLe b a = true := by
  intro a b
  simp only [scoreDescLe, decide_eq_true_eq]
  exact (le_total b.score a.score).symm.imp id id |>.symm

theorem scoreDescLe_trans : ∀ a b c : SkillRecord,
    scoreDescLe a b = true → scoreDescLe b c = true → scoreDescLe a c = true := by
  intro a b c
  simp only [scoreDescLe, decide_eq_true_eq]
  intro h1 h2
  exact le_trans h2 h1

theorem analyzeSkills_sorted (text : Str) :
    (analyzeSkills text).Pairwise (fun a b => b.score ≤ a.score) := by
  unfold analyzeSkills
  dsimp only
  have h := insortLe_pairwise scoreDescLe_total scoreDescLe_trans
    ((analyzePass2 text (lowerStr text) (analyzePass1 text (lowerStr text))).map (fun kv => kv.2))
  refine h.imp ?_
  intro a b hab
  simpa [scoreDescLe] using hab

/-! ## Score bounds -/

theorem round2_mem_0_100 {q : ℚ} (h0 : 0 ≤ q) (h1 : q ≤ 100) :
    0 ≤ round2 q ∧ round2 q ≤ 100 := by
  have h := @round2_bounds 0 100 q (by exact_mod_cast h0) (by exact_mod_cast h1)
  exact ⟨by exact_mod_cast h.1, by exact_mod_cast h.2⟩

theorem calcSkillMatch_bounds (semantic : ℚ) (cs rs ps : List Str) :
    0 ≤ calcSkillMatch semantic cs rs ps ∧ calcSkillMatch semantic cs rs ps ≤ 100 := by
  unfold calcSkillMatch
  split
  · norm_num
  · dsimp only
    split
    · norm_num
    · apply round2_mem_0_100
      · exact le_max_left _ _
      · exact max_le (by norm_num) (min_le_left _ _)

theorem calcExperienceMatch_bounds (c r : ℤ) :
    0 ≤ calcExperienceMatch c r ∧ calcExperienceMatch c r ≤ 100 := by
  unfold calcExperienceMatch
  split
  · norm_num
  · split
    · norm_num
    · dsimp only
      split
      · norm_num
      · split
        · next h1 h2 h3 =>
          have hr : (0 : ℚ) ≤ ((c : ℚ) / (r : ℚ) - 0.8) * 95 := by
            have : (0.8 : ℚ) ≤ (c : ℚ) / (r : ℚ) := h3
            nlinarith
          apply round2_mem_0_100
          · exact le_min (by norm_num) (by linarith)
          · exact min_le_left _ _
        · next h1 h2 h3 =>
          have hlt : (c : ℚ) / (r : ℚ) < 0.8 := lt_of_not_le h3
          apply round2_mem_0_100
          · exact le_max_left _ _
          · refine max_le (by norm_num) ?_
            nlinarith

theorem calcEducationMatch_bounds (ed : List Str) (req : Option Str) :
    0 ≤ calcEducationMatch ed req ∧ calcEducationMatch ed req ≤ 100 := by
  unfold calcEducationMatch
  split
  · norm_num
  · split
    · norm_num
    · split
      · norm_num
      · dsimp only
        split
        · norm_num
        · split
          · norm_num
          · split
            · norm_num
            · split
              · norm_num
              · split <;> norm_num

/-! ## Claim theorems -/

/-- C1: for every candidate/job pair, the qualification status returned by
`screen_candidate` is `Qualified` iff `overall ≥ 70` and `skill ≥ 60`;
otherwise `Potentially Qualified` iff `overall ≥ 50` or (`overall ≥ 40` and
`skill ≥ 50`); otherwise `Not Qualified` — where `overall` and `skill` are
the `match_score` and `skill_match_score` of the scores passed in. -/
theorem c1_screen_status (overall skill : ℚ) :
    (screenStatus overall skill = "Qualified" ↔ (70 ≤ overall ∧ 60 ≤ skill)) ∧
    (screenStatus overall skill = "Potentially Qualified" ↔
      (¬(70 ≤ overall ∧ 60 ≤ skill) ∧ (50 ≤ overall ∨ (40 ≤ overall ∧ 50 ≤ skill)))) ∧
    (screenStatus overall skill = "Not Qualified" ↔
      (¬(70 ≤ overall ∧ 60 ≤ skill) ∧ ¬(50 ≤ overall ∨ (40 ≤ overall ∧ 50 ≤ skill)))) := by
  have d1 : ("Qualified" : String) ≠ "Potentially Qualified" := by decide
  have d2 : ("Qualified" : String) ≠ "Not Qualified" := by decide
  have d3 : ("Potentially Qualified" : String) ≠ "Not Qualified" := by decide
  unfold screenStatus
  by_cases h1 : (70 ≤ overall ∧ 60 ≤ skill)
  · simp [h1, d1, d2]
  · by_cases h2 : (50 ≤ overall ∨ (40 ≤ overall ∧ 50 ≤ skill))
    · simp [h1, h2, d1.symm, d3]
    · simp [h1, h2, d2.symm, d3.symm]

/-- C2: every one of the four scores returned by `calculate_match_score`
lies in [0, 100], and the overall `match_score` is
`0.5*skill + 0.3*experience + 0.2*education` up to rounding to two decimals
(it is the exact Python `round` of that combination, hence within 1/200). -/
theorem c2_match_score_bounds (semantic : ℚ) (cand : Candidate) (job : JobPosition) :
    (0 ≤ (calculateMatchScore semantic cand job).skill_match_score ∧
      (calculateMatchScore semantic cand job).skill_match_score ≤ 100) ∧
    (0 ≤ (calculateMatchScore semantic cand job).experience_match_score ∧
      (calculateMatchScore semantic cand job).experience_match_score ≤ 100) ∧
    (0 ≤ (calculateMatchScore semantic cand job).education_match_score ∧
      (calculateMatchScore semantic cand job).education_match_score ≤ 100) ∧
    (0 ≤ (calculateMatchScore semantic cand job).match_score ∧
      (calculateMatchScore semantic cand job).match_score ≤ 100) ∧
    (calculateMatchScore semantic cand job).match_score =
      round2 ((calculateMatchScore semantic cand job).skill_match_score * 0.5 +
        (calculateMatchScore semantic cand job).experience_match_score * 0.3 +
        (calculateMatchScore semantic cand job).education_match_score * 0.2) ∧
    |(calculateMatchScore semantic cand job).match_score -
      ((calculateMatchScore semantic cand job).skill_match_score * 0.5 +
        (calculateMatchScore semantic cand job).experience_match_score * 0.3 +
        (calculateMatchScore semantic cand job).education_match_score * 0.2)| ≤ 1/200 := by
  have hs := calcSkillMatch_bounds semantic cand.skills job.required_skills job.preferred_skills
  have he := calcExperienceMatch_bounds cand.total_experience_years job.min_experience_years
  have hd := calcEducationMatch_bounds cand.education job.education_level
  have hw0 : 0 ≤ calcSkillMatch semantic cand.skills job.required_skills job.preferred_skills * 0.5 +
      calcExperienceMatch cand.total_experience_years job.min_experience_years * 0.3 +
      calcEducationMatch cand.education job.education_level * 0.2 := by
    nlinarith [hs.1, he.1, hd.1]
  have hw1 : calcSkillMatch semantic cand.skills job.required_skills job.preferred_skills * 0.5 +
      calcExperienceMatch cand.total_experience_years job.min_experience_years * 0.3 +
      calcEducationMatch cand.education job.education_level * 0.2 ≤ 100 := by
    nlinarith [hs.2, he.2, hd.2]
  refine ⟨hs, he, hd, ?_, rfl, ?_⟩
  · exact round2_mem_0_100 hw0 hw1
  · exact round2_err _

/-- C3 counterexample: for candidate years 1 and required years 5·3/5 = 3 the
claimed value `ratio*100 = 100/3` is not what the code returns; the code
rounds to two decimals and yields exactly 33.33. -/
theorem c3_cx_rounding :
    calcExperienceMatch 1 3 = 3333/100 ∧ ((1 : ℚ)/3) * 100 ≠ 3333/100 := by
  have hf : Rat.floor ((10000 : ℚ)/3) = 3333 := by
    have h1 : (3333 : ℤ) ≤ Rat.floor ((10000 : ℚ)/3) := Rat.le_floor.mpr (by norm_num)
    have h3 : (Rat.floor ((10000 : ℚ)/3) : ℚ) ≤ (10000 : ℚ)/3 := ratFloor_le _
    have h4 : (Rat.floor ((10000 : ℚ)/3) : ℚ) < 3334 := lt_of_le_of_lt h3 (by norm_num)
    have h5 : Rat.floor ((10000 : ℚ)/3) < 3334 := by exact_mod_cast h4
    omega
  have hp : pyRound ((10000 : ℚ)/3) = 3333 := by
    rw [pyRound, hf]
    rw [if_pos (by norm_num)]
  have hr : round2 ((100 : ℚ)/3) = 3333/100 := by
    rw [round2, show ((100 : ℚ)/3 * 100) = 10000/3 by ring, hp]
    norm_num
  constructor
  · rw [calcExperienceMatch]
    norm_num
    exact hr
  · norm_num

/-- C3 (amended): the experience match score is 100 when no minimum is
required; 0 when a minimum is required and the candidate has zero years;
otherwise, with `ratio = candidate/required`, it is 100 when `ratio ≥ 1`,
`round(min(100, 80 + (ratio-0.8)*95), 2)` when `0.8 ≤ ratio < 1`, and
`round(ratio*100, 2)` when `ratio < 0.8`; in particular 10y vs 5y gives 100
and 4y vs 5y gives exactly 80.0.  (The only change from the claim is that
the two lower branches are rounded to two decimals, as the counterexample
forces.) -/
theorem c3_experience_formula (c r : ℤ) (hc : 0 ≤ c) (hr : 0 ≤ r) :
    (r = 0 → calcExperienceMatch c r = 100) ∧
    (r ≠ 0 → c = 0 → calcExperienceMatch c r = 0) ∧
    (r ≠ 0 → c ≠ 0 → 1 ≤ (c : ℚ) / (r : ℚ) → calcExperienceMatch c r = 100) ∧
    (r ≠ 0 → c ≠ 0 → (0.8 : ℚ) ≤ (c : ℚ) / (r : ℚ) → (c : ℚ) / (r : ℚ) < 1 →
      calcExperienceMatch c r = round2 (min 100 (80 + ((c : ℚ) / (r : ℚ) - 0.8) * 95))) ∧
    (r ≠ 0 → c ≠ 0 → (c : ℚ) / (r : ℚ) < 0.8 →
      calcExperienceMatch c r = round2 (((c : ℚ) / (r : ℚ)) * 100)) ∧
    calcExperienceMatch 10 5 = 100 ∧ calcExperienceMatch 4 5 = 80 := by
  refine ⟨?_, ?_, ?_, ?_, ?_, ?_, ?_⟩
  · intro h
    simp [calcExperienceMatch, h]
  · intro h1 h2
    simp [calcExperienceMatch, h1, h2]
  · intro h1 h2 h3
    simp only [calcExperienceMatch, if_neg h1, if_neg h2, if_pos h3]
  · intro h1 h2 h3 h4
    simp only [calcExperienceMatch, if_neg h1, if_neg h2, if_neg (not_le.mpr h4), if_pos h3]
  · intro h1 h2 h3
    have hcp : (1 : ℤ) ≤ c := by omega
    have hrp : (1 : ℤ) ≤ r := by omega
    have hratio : 0 < (c : ℚ) / (r : ℚ) := by
      apply div_pos
      · exact_mod_cast lt_of_lt_of_le zero_lt_one (by exact_mod_cast hcp)
      · exact_mod_cast lt_of_lt_of_le zero_lt_one (by exact_mod_cast hrp)
    have h4 : ¬ (1 : ℚ) ≤ (c : ℚ) / (r : ℚ) := by
      intro hcon
      have : (1 : ℚ) < 0.8 := lt_of_le_of_lt hcon h3
      norm_num at this
    simp only [calcExperienceMatch, if_neg h1, if_neg h2, if_neg h4, if_neg (not_le.mpr h3)]
    have hmax : max (0 : ℚ) ((c : ℚ) / (r : ℚ) * 100) = (c : ℚ) / (r : ℚ) * 100 :=
      max_eq_right (by positivity)
    rw [hmax]
  · with_unfolding_all decide
  · with_unfolding_all decide

/-- C3 witness: the amended formula applied at candidate = 4 years,
required = 5 years (the boundary scenario). -/
theorem c3_experience_formula_witness : calcExperienceMatch 4 5 = 80 :=
  (c3_experience_formula 4 5 (by decide) (by decide)).2.2.2.2.2.2

/-- C4: `parse_cv` absorbs every sub-extraction failure.  Each failed
sub-extraction contributes exactly one typed error string (plus one more
when the critical name-and-email check fires), the final status is
`"failed"` exactly when name and email are both absent or at least three
errors accumulated, and it is `"partial"` when some but not all
sub-extractions fail and no failure condition holds. -/
theorem c4_parse_status {α β : Type} (text : Str) (contact : Except Str ContactInfo)
    (edu : Except Str (List α)) (exper : Except Str (List β × ℤ)) :
    ((parseCV text contact edu exper).extraction_status = "failed".data ↔
      (((parseCV text contact edu exper).name = none ∧
        (parseCV text contact edu exper).email = none) ∨
       3 ≤ (parseCV text contact edu exper).extraction_errors.length)) ∧
    ((parseCV text contact edu exper).extraction_errors.length =
      errCount contact + errCount edu + errCount exper +
        (if (parseCV text contact edu exper).name = none ∧
            (parseCV text contact edu exper).email = none then 1 else 0)) ∧
    (1 ≤ errCount contact + errCount edu + errCount exper →
     errCount contact + errCount edu + errCount exper < 3 →
     ¬((parseCV text contact edu exper).name = none ∧
        (parseCV text contact edu exper).email = none) →
     (parseCV text contact edu exper).extraction_status = "partial".data) := by
  rcases contact with ci | ec <;> rcases edu with le | ee <;> rcases exper with lx | ex <;>
    simp only [parseCV, errCount] <;>
    split_ifs <;>
    simp_all

/-- C4 witness: contact succeeds with a name and an email, education
extraction raises, experience succeeds — one absorbed error, status
`"partial"`. -/
theorem c4_parse_status_witness :
    (parseCV "cv".data
      (Except.ok (⟨some "Jo".data, some "jo@x.io".data, none⟩ : ContactInfo))
      (Except.error "boom".data : Except Str (List ℕ))
      (Except.ok (([], 0) : List ℕ × ℤ))).extraction_status = "partial".data :=
  (c4_parse_status "cv".data
      (Except.ok (⟨some "Jo".data, some "jo@x.io".data, none⟩ : ContactInfo))
      (Except.error "boom".data : Except Str (List ℕ))
      (Except.ok (([], 0) : List ℕ × ℤ))).2.2
    (by decide) (by decide) (by decide)

/-- C5 counterexample: a CV whose experience section contains the inverted
range `2020 - 2018` is stored with `total_experience_years = -2`, a negative
total. -/
theorem c5_cx_negative_total :
    totalExperienceYears 2026 ("Experience\n2020 - 2018").data = -2 ∧
    ¬(0 ≤ totalExperienceYears 2026 ("Experience\n2020 - 2018").data) := by
  have h : totalExperienceYears 2026 ("Experience\n2020 - 2018").data = -2 := by
    with_unfolding_all decide
  exact ⟨h, by rw [h]; decide⟩

/-- C5 (amended): whenever every extracted date range is well-ordered
(start year ≤ end year), the stored `total_experience_years` is a
non-negative integer.  (The unamended claim fails on inverted ranges such
as `2020 - 2018`, which the extractor accepts.) -/
theorem c5_total_nonneg (y : ℤ) (txt : Str)
    (h : ∀ p ∈ experienceDateRanges y txt, p.1 ≤ p.2) :
    0 ≤ totalExperienceYears y txt := by
  unfold totalExperienceYears
  unfold experienceDateRanges at h
  cases hs : extractSection experienceKeywords txt with
  | none => exact le_refl 0
  | some sec =>
    rw [hs] at h
    exact calcTotalExperience_nonneg h

/-- C5 witness: the well-ordered range `2016 - 2019` yields a non-negative
total. -/
theorem c5_total_nonneg_witness :
    (∀ p ∈ experienceDateRanges 2026 ("Experience\n2016 - 2019").data, p.1 ≤ p.2) ∧
    0 ≤ totalExperienceYears 2026 ("Experience\n2016 - 2019").data := by
  have h : ∀ p ∈ experienceDateRanges 2026 ("Experience\n2016 - 2019").data, p.1 ≤ p.2 := by
    with_unfolding_all decide
  exact ⟨h, c5_total_nonneg 2026 ("Experience\n2016 - 2019").data h⟩

/-- C6 counterexample: with the inverted range `(2001, 2000)` the merged
total (5) exceeds the sum of the individual range lengths (4). -/
theorem c6_cx_exceeds_sum :
    calcTotalExperience [((2000 : ℤ), (2005 : ℤ)), (2001, 2000)] = 5 ∧
    sumRangeLens [((2000 : ℤ), (2005 : ℤ)), (2001, 2000)] = 4 ∧
    ¬(calcTotalExperience [((2000 : ℤ), (2005 : ℤ)), (2001, 2000)] ≤
      sumRangeLens [((2000 : ℤ), (2005 : ℤ)), (2001, 2000)]) := by
  refine ⟨?_, ?_, ?_⟩ <;> with_unfolding_all decide

/-- C6 (amended): `_calculate_total_experience` is invariant under
permutation of the input ranges, and when every range is well-ordered
(start ≤ end) the merged total never exceeds the sum of the individual
range lengths.  (The bound fails for inverted ranges, as the counterexample
shows.) -/
theorem c6_perm_invariant_le_sum (l l' : List (ℤ × ℤ)) (hperm : l.Perm l') :
    calcTotalExperience l = calcTotalExperience l' ∧
    ((∀ p ∈ l, p.1 ≤ p.2) → calcTotalExperience l ≤ sumRangeLens l) :=
  ⟨calcTotalExperience_perm hperm, fun h => calcTotalExperience_le_sum h⟩

/-- C6 witness: two overlapping well-ordered ranges, in both orders. -/
theorem c6_perm_invariant_le_sum_witness :
    calcTotalExperience [((2000 : ℤ), (2002 : ℤ)), (2001, 2003)] =
      calcTotalExperience [((2001 : ℤ), (2003 : ℤ)), (2000, 2002)] ∧
    (∀ p ∈ [((2000 : ℤ), (2002 : ℤ)), (2001, 2003)], p.1 ≤ p.2) ∧
    calcTotalExperience [((2000 : ℤ), (2002 : ℤ)), (2001, 2003)] ≤
      sumRangeLens [((2000 : ℤ), (2002 : ℤ)), (2001, 2003)] := by
  have hp : List.Perm [((2000 : ℤ), (2002 : ℤ)), (2001, 2003)]
      [((2001 : ℤ), (2003 : ℤ)), (2000, 2002)] := List.Perm.swap _ _ _
  have h := c6_perm_invariant_le_sum _ _ hp
  have hle : ∀ p ∈ [((2000 : ℤ), (2002 : ℤ)), (2001, 2003)], p.1 ≤ p.2 := by decide
  exact ⟨h.1, hle, h.2 hle⟩

/-- C7 counterexample: on `"basic java js"` both detected skills score 50,
yet the returned order is Java before JavaScript (detection order: Java via
a direct taxonomy hit, JavaScript only via the `js` alias pass), while the
taxonomy declares JavaScript before Java — so ties are broken by detection
order, not by taxonomy declaration order. -/
theorem c7_cx_tie_order :
    analyzeSkills ("basic java js").data =
      [⟨"Java".data, "programming_languages", 50, none⟩,
       ⟨"JavaScript".data, "programming_languages", 50, none⟩] ∧
    taxonomyOrder.indexOf "JavaScript" < taxonomyOrder.indexOf "Java" := by
  constructor
  · with_unfolding_all decide
  · decide

/-- C7 (amended): `analyze_skills` returns at most one record per canonical
name compared case-insensitively, and the sequence is sorted by
non-increasing score; ties are left in detection order (the sort is
stable), not re-ordered by taxonomy declaration order. -/
theorem c7_unique_and_sorted (text : Str) :
    (analyzeSkills text).Pairwise (fun a b => lowerStr a.name ≠ lowerStr b.name) ∧
    (analyzeSkills text).Pairwise (fun a b => b.score ≤ a.score) :=
  ⟨analyzeSkills_unique text, analyzeSkills_sorted text⟩

/-- C8 counterexample: for skill `python` in
`"developed python. built python."` each of the two mentions has an action
verb in its 150-character window, and the action-verb factor contributes
+20 (10 per such mention), not a once-only +10; the total score is 80
(base 50 + frequency 10 + verbs 20). -/
theorem c8_cx_verb_bonus_per_mention :
    verbBonus (lowerStr ("developed python. built python.").data)
        (skillMentions (lowerStr ("developed python. built python.").data)
          (lowerStr ("python").data)) = 20 ∧
    (20 : ℚ) ≠ 10 ∧
    calculateSkillScore ("python").data ("developed python. built python.").data = 80 := by
  refine ⟨?_, ?_, ?_⟩
  · with_unfolding_all decide
  · norm_num
  · with_unfolding_all decide

theorem verbBonus_foldl_aux (tl : Str) (c : ℚ) : ∀ ms : List (Nat × Nat),
    ms.foldl (fun sc m => if mentionHasVerb tl m then sc + 10 else sc) c =
      c + 10 * (ms.countP (fun m => mentionHasVerb tl m) : ℚ)
  | [] => by simp
  | m :: t => by
    simp only [List.foldl_cons, List.countP_cons]
    by_cases h : mentionHasVerb tl m = true
    · rw [if_pos h, verbBonus_foldl_aux tl (c + 10) t]
      simp only [h, if_pos]
      push_cast
      ring
    · rw [if_neg h, verbBonus_foldl_aux tl c t]
      simp only [h, if_neg]
      push_cast
      ring

/-- C8 (amended): the action-verb factor of `calculate_skill_score`
contributes exactly 10 points for each mention of the skill whose
150-character-before window contains an action verb — per mention, not
once per skill (the inner `break` only stops scanning further verbs for
the same mention). -/
theorem c8_verb_bonus_formula (tl : Str) (ms : List (Nat × Nat)) :
    verbBonus tl ms = 10 * (ms.countP (fun m => mentionHasVerb tl m) : ℚ) := by
  unfold verbBonus
  rw [verbBonus_foldl_aux]
  ring

theorem dedup_foldl_nodup {γ : Type} (f : γ → EducationEntry) :
    ∀ (l : List γ) (acc : List EducationEntry), acc.Nodup →
      (l.foldl (fun acc2 m => if f m ∈ acc2 then acc2 else acc2 ++ [f m]) acc).Nodup := by
  intro l
  induction l with
  | nil => intro acc h; exact h
  | cons x t ih =>
    intro acc h
    simp only [List.foldl_cons]
    by_cases hx : f x ∈ acc
    · rw [if_pos hx]; exact ih acc h
    · rw [if_neg hx]
      refine ih _ ?_
      rw [List.nodup_append]
      refine ⟨h, List.nodup_singleton _, ?_⟩
      intro a ha hb
      simp only [List.mem_singleton] at hb
      subst hb
      exact hx ha

theorem eduFold_nodup (ner : Str → List Str) (sec : Str) :
    ∀ (pats : List RE) (acc : List EducationEntry), acc.Nodup →
      (pats.foldl (fun acc pat =>
        (reFinditer pat sec).foldl (fun acc2 m =>
          if eduEntryOf ner sec m ∈ acc2 then acc2 else acc2 ++ [eduEntryOf ner sec m]) acc)
        acc).Nodup := by
  intro pats
  induction pats with
  | nil => intro acc h; exact h
  | cons p t ih =>
    intro acc h
    simp only [List.foldl_cons]
    exact ih _ (dedup_foldl_nodup (eduEntryOf ner sec) (reFinditer p sec) acc h)

/-- C9 counterexample: in an education section holding `Bachelor in Arts`
and, two hundred characters of filler later, `Bachelor in Laws`, the two
extracted entries agree on degree (`Bachelor`), institution (none) and year
(none) yet both are kept — deduplication compares whole entries (including
the field of study), not the (degree, institution, year) triple. -/
theorem c9_cx_duplicate_triple :
    extractEducation (fun _ => [])
        (("Education\nBachelor in Arts\n").data ++
          (List.replicate 66 ("qq ").data).flatten ++ ("\nBachelor in Laws").data) =
      [⟨"Bachelor".data, some ("in Arts").data, none, none, ("Bachelor's").data⟩,
       ⟨"Bachelor".data, some ("in Laws").data, none, none, ("Bachelor's").data⟩] ∧
    ¬((extractEducation (fun _ => [])
        (("Education\nBachelor in Arts\n").data ++
          (List.replicate 66 ("qq ").data).flatten ++ ("\nBachelor in Laws").data)).Pairwise
      (fun a b => ¬(a.degree = b.degree ∧ a.institution = b.institution ∧ a.year = b.year))) := by
  have h : extractEducation (fun _ => [])
        (("Education\nBachelor in Arts\n").data ++
          (List.replicate 66 ("qq ").data).flatten ++ ("\nBachelor in Laws").data) =
      [⟨"Bachelor".data, some ("in Arts").data, none, none, ("Bachelor's").data⟩,
       ⟨"Bachelor".data, some ("in Laws").data, none, none, ("Bachelor's").data⟩] := by
    with_unfolding_all decide
  refine ⟨h, ?_⟩
  rw [h]
  decide

/-- C9 (amended): the education list contains no two identical entries —
duplicates are suppressed by whole-entry equality (degree, field,
institution, year and level all equal), a coarser test than the claimed
(degree, institution, year) triple. -/
theorem c9_entries_nodup (ner : Str → List Str) (text : Str) :
    (extractEducation ner text).Nodup := by
  unfold extractEducation
  cases hs : extractSection eduKeywords text with
  | none => exact List.nodup_nil
  | some sec => exact eduFold_nodup ner sec degreePatterns [] List.nodup_nil

/-- C10: a record whose canonical skill name never occurs (lowercased) in
the lowered text — as happens when the skill is detected only through an
alias — has no mentions, so frequency, keyword, years, section and verb
factors all contribute nothing: its score is exactly the base 50 and its
years field is `none`. -/
theorem c10_alias_only_base_score (text : Str) (r : SkillRecord)
    (hr : r ∈ analyzeSkills text)
    (h : strContains (lowerStr text) (lowerStr r.name) = false) :
    r.score = 50 ∧ r.years = none := by
  obtain ⟨hs, hy⟩ := analyzeSkills_mem text r hr
  exact ⟨hs.trans (calculateSkillScore_base h), hy.trans (extractExperienceYears_none h)⟩

/-- C10 witness: in the text `"js"` JavaScript is detected only through the
`js` alias, its canonical name occurs nowhere in the text, and its record
carries the base score 50 and no years. -/
theorem c10_alias_only_base_score_witness :
    (⟨"JavaScript".data, "programming_languages", 50, none⟩ : SkillRecord) ∈
        analyzeSkills ("js").data ∧
    strContains (lowerStr ("js").data) (lowerStr ("JavaScript").data) = false ∧
    ((⟨"JavaScript".data, "programming_languages", 50, none⟩ : SkillRecord).score = 50 ∧
     (⟨"JavaScript".data, "programming_languages", 50, none⟩ : SkillRecord).years = none) := by
  have hm : (⟨"JavaScript".data, "programming_languages", 50, none⟩ : SkillRecord) ∈
      analyzeSkills ("js").data := by with_unfolding_all decide
  have hc : strContains (lowerStr ("js").data)
      (lowerStr (SkillRecord.name ⟨"JavaScript".data, "programming_languages", 50, none⟩)) =
        false := by decide
  exact ⟨hm, hc, c10_alias_only_base_score ("js").data _ hm hc⟩
